import Mathlib

/-!
Verification development for the Toyota GR race-simulation engine
(`server.py`, with the parallel prototype `nice.py`).

Numbers are modelled by `ℚ` (the Python code computes with floats; all the
constants appearing in the verified code paths are decimal literals, which are
exact rationals).  Stateful methods become explicit state-passing functions;
calls to the ambient random number generator become explicit oracle inputs.
-/

namespace GRSim

/-- Python's built-in `round` to the nearest integer: round half to even. -/
def roundEven (q : ℚ) : ℤ :=
  if q - ⌊q⌋ < 1/2 then ⌊q⌋
  else if 1/2 < q - ⌊q⌋ then ⌊q⌋ + 1
  else if 2 ∣ ⌊q⌋ then ⌊q⌋ else ⌊q⌋ + 1

/-- Python's `round(x, 2)`. -/
def round2 (q : ℚ) : ℚ := (roundEven (q * 100) : ℚ) / 100

/-- Python's `round(x, 3)`. -/
def round3 (q : ℚ) : ℚ := (roundEven (q * 1000) : ℚ) / 1000

/-- `TYRE_BASE.get(t, dflt)` (server.py lines 35-41; the duplicated `'HARD'`
keys of the source dict collapse to a single entry). -/
def TYRE_BASE (t : String) (dflt : ℚ) : ℚ :=
  if t = "SOFT" then 1.00
  else if t = "MEDIUM" then 0.95
  else if t = "HARD" then 0.90
  else if t = "WET" then 0.78
  else dflt

/-- `TYRE_WEAR_RATES.get(t, 1.0)` (server.py lines 43-49). -/
def TYRE_WEAR_RATES (t : String) : ℚ :=
  if t = "SOFT" then 2.0
  else if t = "MEDIUM" then 1.0
  else if t = "HARD" then 0.5
  else if t = "WET" then 1.2
  else 1.0

/-- `TYRE_HEAT_FACTORS.get(t, 1.0)` (server.py lines 51-57). -/
def TYRE_HEAT_FACTORS (t : String) : ℚ :=
  if t = "SOFT" then 1.2
  else if t = "MEDIUM" then 1.0
  else if t = "HARD" then 0.8
  else if t = "WET" then 0.9
  else 1.0

/-- `PIT_TIME_BASE` (server.py line 59). -/
def PIT_TIME_BASE : ℚ := 22.0

/-- One resolved undercut record, as stored in `pitstop['undercuts'][name]`
(server.py lines 1128-1140 and 1149-1161). -/
structure URecord where
  time_gain : ℚ
  position_before : ℤ
  position_after : ℤ
  position_change : ℤ
  other_position : ℤ
  time_gap_before : ℚ
  time_gap_after : ℚ
  tire_a : String
  tire_b : String
  tire_factor : ℚ
  undercut_type : String
deriving Repr, DecidableEq

/-- One entry of `car.pitstop_history` (server.py lines 828-833; the
`undercuts` dict is an insertion-ordered association list). -/
structure Pitstop where
  lap : ℤ
  tyre : String
  pit_time : ℚ
  new_tyre : Option String
  undercuts : List (String × URecord)
deriving Repr, DecidableEq

/-- The mutable per-car state of `CarState` (server.py lines 157-226),
restricted to the fields read or written by the simulation core. -/
structure Car where
  name : String
  driver_skill : ℚ
  car_skill : ℚ
  aggression : ℚ
  tyre : String
  wear : ℚ
  fuel_capacity : ℚ
  fuel : ℚ
  refuel_rate : ℚ
  total_time : ℚ
  laps_completed : ℤ
  on_pit : Bool
  pit_counter : ℚ
  s : ℚ
  v : ℚ
  position : ℤ
  tire_temp : ℚ
  pitstop_history : List Pitstop
  pitstop_count : ℤ
  position_before_pitstop : Option ℤ
  pitstop_lap : Option ℤ
  error_active : Bool
  error_timer : ℚ
  error_speed_multiplier : ℚ
  drs_active : Bool
deriving Repr, DecidableEq

/-- A car with the constructor defaults of `CarState.__init__`. -/
def defaultCar : Car :=
  { name := "", driver_skill := 0.9, car_skill := 0.85, aggression := 0.5,
    tyre := "MEDIUM", wear := 0, fuel_capacity := 110, fuel := 110,
    refuel_rate := 3, total_time := 0, laps_completed := 0, on_pit := false,
    pit_counter := 0, s := 0, v := 0, position := 0, tire_temp := 100,
    pitstop_history := [], pitstop_count := 0, position_before_pitstop := none,
    pitstop_lap := none, error_active := false, error_timer := 0,
    error_speed_multiplier := 1, drs_active := false }

instance : Inhabited Car := ⟨defaultCar⟩

/-- One `pending_undercuts` entry (server.py lines 1042-1051). -/
structure Pending where
  driver_a : String
  driver_b : String
  a_pit_lap : ℤ
  gap_before : ℚ
  tire_a : String
  tire_b : String
  a_position : ℤ
  b_position : ℤ
deriving Repr, DecidableEq

/-- The sort key ordering of `get_leaderboard` (server.py lines 971-973):
`key=lambda c: (-c.laps_completed, -c.s, c.total_time)`, compared
lexicographically; `carLE a b` says `a`'s key is at most `b`'s. -/
def carLE (a b : Car) : Prop :=
  b.laps_completed < a.laps_completed ∨
    (b.laps_completed = a.laps_completed ∧
      (b.s < a.s ∨ (b.s = a.s ∧ a.total_time ≤ b.total_time)))

instance : DecidableRel carLE := fun a b => by unfold carLE; infer_instance

/-- Strict version of the leaderboard comparator: `a` ranks strictly ahead
of `b`. -/
def carLT (a b : Car) : Prop :=
  b.laps_completed < a.laps_completed ∨
    (b.laps_completed = a.laps_completed ∧
      (b.s < a.s ∨ (b.s = a.s ∧ a.total_time < b.total_time)))

instance : DecidableRel carLT := fun a b => by unfold carLT; infer_instance

/-- Two cars have equal sort keys. -/
def keyEq (a b : Car) : Prop :=
  a.laps_completed = b.laps_completed ∧ a.s = b.s ∧ a.total_time = b.total_time

instance : DecidableRel keyEq := fun a b => by unfold keyEq; infer_instance

instance : IsTotal Car carLE :=
  ⟨fun a b => by
    unfold carLE
    rcases lt_trichotomy a.laps_completed b.laps_completed with h | h | h
    · exact Or.inr (Or.inl h)
    · rcases lt_trichotomy a.s b.s with h2 | h2 | h2
      · exact Or.inr (Or.inr ⟨h, Or.inl h2⟩)
      · rcases le_total a.total_time b.total_time with h3 | h3
        · exact Or.inl (Or.inr ⟨h.symm, Or.inr ⟨h2.symm, h3⟩⟩)
        · exact Or.inr (Or.inr ⟨h, Or.inr ⟨h2, h3⟩⟩)
      · exact Or.inl (Or.inr ⟨h.symm, Or.inl h2⟩)
    · exact Or.inl (Or.inl h)⟩

instance : IsTrans Car carLE :=
  ⟨fun a b c hab hbc => by
    unfold carLE at *
    rcases hab with h1 | ⟨e1, h1⟩ <;> rcases hbc with h2 | ⟨e2, h2⟩
    · exact Or.inl (h2.trans h1)
    · exact Or.inl (by omega)
    · exact Or.inl (by omega)
    · refine Or.inr ⟨by omega, ?_⟩
      rcases h1 with f1 | ⟨f1, t1⟩ <;> rcases h2 with f2 | ⟨f2, t2⟩
      · exact Or.inl (f2.trans f1)
      · exact Or.inl (by rw [f2]; exact f1)
      · exact Or.inl (by rw [← f1]; exact f2)
      · exact Or.inr ⟨f2.trans f1, t1.trans t2⟩⟩

/-- `sorted(self.cars, key=lambda c: (-laps, -s, total_time))`.  Python's
sort is stable; insertion sort realizes the same stable sort. -/
def sortCars (cars : List Car) : List Car := cars.insertionSort carLE

/-- `RaceSim.get_leaderboard` (server.py lines 971-976): sort, then assign
`position = index + 1` to each car of the sorted list. -/
def get_leaderboard (cars : List Car) : List Car :=
  (sortCars cars).enum.map (fun ic => { ic.2 with position := (ic.1 : ℤ) + 1 })

/-- The rank (1-based leaderboard position) of the car named `n`. -/
def rankOf (cars : List Car) (n : String) : ℤ :=
  match (sortCars cars).findIdx? (fun c => c.name == n) with
  | some i => (i : ℤ) + 1
  | none => ((sortCars cars).length : ℤ) + 1

/-- `np.mod(x, L)` for rationals: `x - L * ⌊x / L⌋` (always the
representative in `[0, L)` when `L > 0`, as numpy computes for floats). -/
def qmod (x L : ℚ) : ℚ := x - L * ⌊x / L⌋

/-- `np.interp(x, xp, fp)` on an ascending table, zipped into pairs:
clamps below the first and above the last node, linear in between. -/
def interp (x : ℚ) : List (ℚ × ℚ) → ℚ
  | [] => 0
  | [(_, y)] => y
  | (x1, y1) :: (x2, y2) :: rest =>
    if x ≤ x1 then y1
    else if x ≤ x2 then y1 + (y2 - y1) * (x - x1) / (x2 - x1)
    else interp x ((x2, y2) :: rest)

/-- The data captured by the closures returned from `build_spline`
(server.py lines 108-155): the sampled arc-length table `s_arclen`, the
parameter samples `ss`, the sampled `curvature` table, and `total_length`. -/
structure Track where
  s_arclen : List ℚ
  ss : List ℚ
  curvature : List ℚ
  total_length : ℚ
deriving Repr, DecidableEq

/-- `build_spline`'s `s_to_u` (server.py lines 139-142, nice.py lines
102-106): reduce the arc modulo `total_length`, then linearly interpolate
the inverse arc-length table. -/
def s_to_u (T : Track) (arc : ℚ) : ℚ :=
  interp (qmod arc T.total_length) (T.s_arclen.zip T.ss)

/-- `build_spline`'s `curv` (server.py lines 136-137): linear
interpolation of the sampled curvature table. -/
def curvAt (T : Track) (u : ℚ) : ℚ :=
  interp u (T.ss.zip T.curvature)

lemma qmod_add_right (x L : ℚ) (hL : L ≠ 0) : qmod (x + L) L = qmod x L := by
  unfold qmod
  have h : (x + L) / L = x / L + 1 := by field_simp
  rw [h, Int.floor_add_one]
  push_cast
  ring

lemma qmod_nonneg (x L : ℚ) (hL : 0 < L) : 0 ≤ qmod x L := by
  unfold qmod
  have h := Int.fract_nonneg (x / L)
  have h2 : qmod x L = L * Int.fract (x / L) := by
    unfold qmod Int.fract
    field_simp
  unfold qmod at h2
  nlinarith [h2]

lemma qmod_lt (x L : ℚ) (hL : 0 < L) : qmod x L < L := by
  have h := Int.fract_lt_one (x / L)
  have h2 : qmod x L = L * Int.fract (x / L) := by
    unfold qmod Int.fract
    field_simp
  rw [h2]
  nlinarith [h]

/-- C8: for every built track (positive total length) and every rational
arc value, `s_to_u` is total — it reduces the arc modulo `total_length`
into `[0, total_length)` — and periodic: `s_to_u (arc + total_length) =
s_to_u arc`. -/
theorem C8_s_to_u_total_and_periodic (T : Track) (hL : 0 < T.total_length)
    (arc : ℚ) :
    s_to_u T (arc + T.total_length) = s_to_u T arc ∧
      0 ≤ qmod arc T.total_length ∧ qmod arc T.total_length < T.total_length := by
  refine ⟨?_, qmod_nonneg _ _ hL, qmod_lt _ _ hL⟩
  unfold s_to_u
  rw [qmod_add_right _ _ (ne_of_gt hL)]

/-- Witness for C8 on a concrete track table of total length 5. -/
theorem C8_s_to_u_total_and_periodic_witness :
    s_to_u ⟨[0, 5], [0, 1], [0, 0], 5⟩ (3 + 5) = s_to_u ⟨[0, 5], [0, 1], [0, 0], 5⟩ 3 ∧
      0 ≤ qmod 3 5 ∧ qmod 3 5 < 5 :=
  C8_s_to_u_total_and_periodic ⟨[0, 5], [0, 1], [0, 0], 5⟩ (by norm_num) 3

/-- The leaderboard comparator as the spec words it (and as nice.py line 575
implements it): laps descending, track distance within the current lap
(`s % total_length`) descending, `total_time` ascending. -/
def carLTwithinLap (L : ℚ) (a b : Car) : Prop :=
  b.laps_completed < a.laps_completed ∨
    (b.laps_completed = a.laps_completed ∧
      (qmod b.s L < qmod a.s L ∨ (qmod b.s L = qmod a.s L ∧ a.total_time < b.total_time)))

lemma qmod_lt_qmod_iff (L x y kq : ℚ) (hx : qmod x L = x - L * kq)
    (hy : qmod y L = y - L * kq) : (qmod x L < qmod y L ↔ x < y) := by
  rw [hx, hy]; constructor <;> intro h <;> linarith

/-- C5: the three-key leaderboard comparator `(laps desc, distance desc,
total_time asc)` is a strict total order: for any two cars exactly one of
ahead / behind / all-three-keys-tie holds; a car ahead on lap count always
ranks above; ties break by distance, then by lower elapsed time;
`get_leaderboard` returns a permutation of the cars sorted by this
comparator; and whenever each car's lap count equals `⌊s / L⌋` (as the lap
counter maintains), comparing raw distance `s` agrees with comparing the
distance within the current lap (`s % L`), the form used by nice.py. -/
theorem C5_leaderboard_strict_total_order :
    (∀ a b : Car, carLT a b ∨ carLT b a ∨ keyEq a b) ∧
    (∀ a b : Car, ¬(carLT a b ∧ carLT b a)) ∧
    (∀ a b : Car, ¬(carLT a b ∧ keyEq a b)) ∧
    (∀ a b : Car, ¬(carLT b a ∧ keyEq a b)) ∧
    (∀ a b : Car, b.laps_completed < a.laps_completed → carLT a b) ∧
    (∀ a b : Car, b.laps_completed = a.laps_completed → b.s < a.s → carLT a b) ∧
    (∀ a b : Car, b.laps_completed = a.laps_completed → b.s = a.s →
      a.total_time < b.total_time → carLT a b) ∧
    (∀ cars : List Car, List.Sorted carLE (get_leaderboard cars)) ∧
    (∀ cars : List Car, List.Perm (sortCars cars) cars) ∧
    (∀ (L : ℚ) (a b : Car), a.laps_completed = ⌊a.s / L⌋ →
      b.laps_completed = ⌊b.s / L⌋ → (carLT a b ↔ carLTwithinLap L a b)) := by
  refine ⟨?_, ?_, ?_, ?_, ?_, ?_, ?_, ?_, ?_, ?_⟩
  · intro a b
    unfold carLT keyEq
    rcases lt_trichotomy b.laps_completed a.laps_completed with h | h | h
    · exact Or.inl (Or.inl h)
    · rcases lt_trichotomy b.s a.s with h2 | h2 | h2
      · exact Or.inl (Or.inr ⟨h, Or.inl h2⟩)
      · rcases lt_trichotomy a.total_time b.total_time with h3 | h3 | h3
        · exact Or.inl (Or.inr ⟨h, Or.inr ⟨h2, h3⟩⟩)
        · exact Or.inr (Or.inr ⟨h.symm, h2.symm, h3⟩)
        · exact Or.inr (Or.inl (Or.inr ⟨h.symm, Or.inr ⟨h2.symm, h3⟩⟩))
      · exact Or.inr (Or.inl (Or.inr ⟨h.symm, Or.inl h2⟩))
    · exact Or.inr (Or.inl (Or.inl h))
  · rintro a b ⟨h1, h2⟩
    unfold carLT at h1 h2
    rcases h1 with l1 | ⟨e1, h1⟩ <;> rcases h2 with l2 | ⟨e2, h2⟩
    · omega
    · omega
    · omega
    · rcases h1 with s1 | ⟨f1, t1⟩ <;> rcases h2 with s2 | ⟨f2, t2⟩ <;> linarith
  · rintro a b ⟨h1, e⟩
    unfold carLT at h1; unfold keyEq at e
    rcases h1 with l1 | ⟨e1, h1⟩
    · omega
    · rcases h1 with s1 | ⟨f1, t1⟩ <;> [linarith [e.2.1]; linarith [e.2.2]]
  · rintro a b ⟨h1, e⟩
    unfold carLT at h1; unfold keyEq at e
    rcases h1 with l1 | ⟨e1, h1⟩
    · omega
    · rcases h1 with s1 | ⟨f1, t1⟩ <;> [linarith [e.2.1]; linarith [e.2.2]]
  · intro a b h; exact Or.inl h
  · intro a b h h2; exact Or.inr ⟨h, Or.inl h2⟩
  · intro a b h h2 h3; exact Or.inr ⟨h, Or.inr ⟨h2, h3⟩⟩
  · intro cars
    have hs : List.Sorted carLE (sortCars cars) := List.sorted_insertionSort carLE cars
    have he : List.Pairwise (fun p q : ℕ × Car => carLE p.2 q.2) (sortCars cars).enum := by
      have h2 : ((sortCars cars).enum.map Prod.snd).Pairwise carLE := by
        rw [List.enum_map_snd]; exact hs
      exact (List.pairwise_map).mp h2
    unfold get_leaderboard
    rw [List.Sorted, List.pairwise_map]
    refine he.imp ?_
    intro p q h
    simpa [carLE] using h
  · intro cars; exact List.perm_insertionSort carLE cars
  · intro L a b ha hb
    unfold carLT carLTwithinLap
    constructor
    · rintro (h | ⟨e, h⟩)
      · exact Or.inl h
      · refine Or.inr ⟨e, ?_⟩
        have hk : (⌊b.s / L⌋ : ℤ) = ⌊a.s / L⌋ := by omega
        have hqa : qmod a.s L = a.s - L * (⌊a.s / L⌋ : ℚ) := rfl
        have hqb : qmod b.s L = b.s - L * (⌊a.s / L⌋ : ℚ) := by
          unfold qmod; rw [hk]
        rcases h with h | ⟨h, h3⟩
        · exact Or.inl ((qmod_lt_qmod_iff L b.s a.s _ hqb hqa).mpr h)
        · refine Or.inr ⟨?_, h3⟩
          rw [hqa, hqb, h]
    · rintro (h | ⟨e, h⟩)
      · exact Or.inl h
      · refine Or.inr ⟨e, ?_⟩
        have hk : (⌊b.s / L⌋ : ℤ) = ⌊a.s / L⌋ := by omega
        have hqa : qmod a.s L = a.s - L * (⌊a.s / L⌋ : ℚ) := rfl
        have hqb : qmod b.s L = b.s - L * (⌊a.s / L⌋ : ℚ) := by
          unfold qmod; rw [hk]
        rcases h with h | ⟨h, h3⟩
        · exact Or.inl ((qmod_lt_qmod_iff L b.s a.s _ hqb hqa).mp h)
        · refine Or.inr ⟨?_, h3⟩
          rw [hqa, hqb] at h; linarith

/-- Witness for C5: a car one lap ahead ranks strictly above. -/
theorem C5_leaderboard_strict_total_order_witness :
    carLT { defaultCar with name := "A", laps_completed := 2 }
      { defaultCar with name := "B", laps_completed := 1 } :=
  C5_leaderboard_strict_total_order.2.2.2.2.1
    { defaultCar with name := "A", laps_completed := 2 }
    { defaultCar with name := "B", laps_completed := 1 } (by decide)

/-- One tick of the distance-advance / lap-crossing update of
`RaceSim.step` (server.py lines 947-951, nice.py lines 524-529):
`s += d` (with `d = v * dt`), then `laps_completed += 1` exactly when
`s // L` increased. -/
def lapAdvance (L : ℚ) (st : ℚ × ℤ) (d : ℚ) : ℚ × ℤ :=
  let s2 := st.1 + d
  (s2, if ⌊s2 / L⌋ > ⌊(s2 - d) / L⌋ then st.2 + 1 else st.2)

/-- A sequence of distance-advance ticks. -/
def runTicks (L : ℚ) (st : ℚ × ℤ) (ds : List ℚ) : ℚ × ℤ :=
  ds.foldl (lapAdvance L) st

lemma floor_step_bound (L s d : ℚ) (hL : 0 < L) (hd0 : 0 ≤ d) (hdL : d < L) :
    ⌊s / L⌋ ≤ ⌊(s + d) / L⌋ ∧ ⌊(s + d) / L⌋ ≤ ⌊s / L⌋ + 1 := by
  constructor
  · exact Int.floor_le_floor ((div_le_div_iff_of_pos_right hL).mpr (by linarith))
  · have hsplit : (s + d) / L = s / L + d / L := add_div s d L
    have hfrac : d / L < 1 := (div_lt_one hL).mpr hdL
    have hle : (s + d) / L ≤ s / L + 1 := by rw [hsplit]; linarith
    have h2 := Int.floor_le_floor hle
    rwa [Int.floor_add_one] at h2

lemma lapAdvance_eq (L : ℚ) (hL : 0 < L) (s0 : ℚ) (n0 : ℤ) (d : ℚ)
    (hd0 : 0 ≤ d) (hdL : d < L) :
    lapAdvance L (s0, n0) d = (s0 + d, n0 + (⌊(s0 + d) / L⌋ - ⌊s0 / L⌋)) := by
  unfold lapAdvance
  have hsimp : s0 + d - d = s0 := by ring
  obtain ⟨h1, h2⟩ := floor_step_bound L s0 d hL hd0 hdL
  simp only [hsimp]
  by_cases hgt : ⌊s0 / L⌋ < ⌊(s0 + d) / L⌋
  · simp only [gt_iff_lt, hgt, if_true, Prod.mk.injEq, true_and]
    omega
  · simp only [gt_iff_lt, hgt, if_false, Prod.mk.injEq, true_and]
    omega

/-- C4 (amended): provided every tick's distance advance lies in `[0, L)`
(so each tick crosses at most one lap boundary), the lap counter after any
sequence of ticks equals the number of multiples of `L` crossed in total:
`laps = laps₀ + ⌊(s₀ + Δ) / L⌋ - ⌊s₀ / L⌋` where `Δ` is the total distance;
hence any two step-size partitions of the same total distance give the same
final lap count. -/
theorem C4_lap_count_partition_invariant (L : ℚ) (hL : 0 < L) (s0 : ℚ) (n0 : ℤ)
    (ds : List ℚ) (h : ∀ d ∈ ds, 0 ≤ d ∧ d < L) :
    runTicks L (s0, n0) ds = (s0 + ds.sum, n0 + (⌊(s0 + ds.sum) / L⌋ - ⌊s0 / L⌋)) ∧
      ∀ ds2 : List ℚ, (∀ d ∈ ds2, 0 ≤ d ∧ d < L) → ds2.sum = ds.sum →
        runTicks L (s0, n0) ds2 = runTicks L (s0, n0) ds := by
  have main : ∀ (l : List ℚ) (s : ℚ) (n : ℤ), (∀ d ∈ l, 0 ≤ d ∧ d < L) →
      runTicks L (s, n) l = (s + l.sum, n + (⌊(s + l.sum) / L⌋ - ⌊s / L⌋)) := by
    intro l
    induction l with
    | nil => intro s n _; simp [runTicks]
    | cons d rest ih =>
      intro s n h
      have hd := h d (List.mem_cons_self _ _)
      have hrest : ∀ x ∈ rest, 0 ≤ x ∧ x < L :=
        fun x hx => h x (List.mem_cons_of_mem _ hx)
      have hstep : runTicks L (s, n) (d :: rest) =
          runTicks L (lapAdvance L (s, n) d) rest := by
        simp [runTicks]
      rw [hstep, lapAdvance_eq L hL s n d hd.1 hd.2,
        ih (s + d) (n + (⌊(s + d) / L⌋ - ⌊s / L⌋)) hrest]
      have hsum : s + d + rest.sum = s + (d :: rest).sum := by
        simp [List.sum_cons]; ring
      rw [hsum, Prod.mk.injEq]
      exact ⟨rfl, by omega⟩
  refine ⟨main ds s0 n0 h, fun ds2 h2 hsum => ?_⟩
  rw [main ds s0 n0 h, main ds2 s0 n0 h2, hsum]

/-- Witness for C4: three ticks of 4 on a lap of length 10 end at distance
12 having completed exactly 1 lap. -/
theorem C4_lap_count_partition_invariant_witness :
    runTicks 10 (0, 0) [4, 4, 4] = (12, 1) := by
  have h := (C4_lap_count_partition_invariant 10 (by norm_num) 0 0 [4, 4, 4]
    (by norm_num)).1
  simp only [List.sum_cons, List.sum_nil] at h
  rw [h]
  norm_num

/-- Counterexample to C4 as stated: one large step covering distance 20 on
a lap of length 10 (crossing two lap boundaries) increments the lap counter
once, while two steps of 10 covering the same total distance increment it
twice — the final lap count is not independent of the step partition. -/
theorem C4_counterexample_large_step :
    (runTicks 10 (0, 0) [20]).2 = 1 ∧ (runTicks 10 (0, 0) [10, 10]).2 = 2 ∧
      ([(20 : ℚ)].sum = [(10 : ℚ), 10].sum) := by
  refine ⟨?_, ?_, by norm_num⟩ <;> norm_num [runTicks, lapAdvance]

lemma roundEven_neg (q : ℚ) : roundEven (-q) = -roundEven q := by
  unfold roundEven
  rw [Int.self_sub_floor, Int.self_sub_floor]
  by_cases h0 : Int.fract q = 0
  · have hq : q = (⌊q⌋ : ℚ) := by
      have h := Int.floor_add_fract q
      rw [h0, add_zero] at h
      exact h.symm
    have hfneg : ⌊-q⌋ = -⌊q⌋ := by
      conv_lhs => rw [hq]
      rw [← Int.cast_neg, Int.floor_intCast]
    have hfr : Int.fract (-q) = 0 := by
      conv_lhs => rw [hq]
      rw [← Int.cast_neg, Int.fract_intCast]
    rw [hfneg, hfr, h0]
    norm_num
  · have hfr : Int.fract (-q) = 1 - Int.fract q := Int.fract_neg h0
    have hfneg : ⌊-q⌋ = -⌊q⌋ - 1 := by
      have h1 : (-q) - Int.fract (-q) = ((⌊-q⌋ : ℤ) : ℚ) := Int.self_sub_fract (-q)
      have h2 : q - Int.fract q = ((⌊q⌋ : ℤ) : ℚ) := Int.self_sub_fract q
      have h3 : ((⌊-q⌋ : ℤ) : ℚ) = ((-⌊q⌋ - 1 : ℤ) : ℚ) := by
        rw [← h1, hfr]
        push_cast
        rw [← h2]
        ring
      exact_mod_cast h3
    have hb := Int.fract_nonneg q
    have hb2 := Int.fract_lt_one q
    have hpos : 0 < Int.fract q := lt_of_le_of_ne hb (Ne.symm h0)
    rw [hfneg, hfr]
    split_ifs <;> first | omega | (exfalso; linarith)

lemma round2_neg (q : ℚ) : round2 (-q) = -round2 q := by
  unfold round2
  have h : -q * 100 = -(q * 100) := by ring
  rw [h, roundEven_neg]
  push_cast
  ring

lemma round3_neg (q : ℚ) : round3 (-q) = -round3 q := by
  unfold round3
  have h : -q * 1000 = -(q * 1000) := by ring
  rw [h, roundEven_neg]
  push_cast
  ring

/-- `next((c for c in cars if c.name == n), None)`. -/
def findByName (cars : List Car) (n : String) : Option Car :=
  cars.find? (fun c => c.name == n)

/-- Mutating the car object named `n`: driver names are distinct in the
roster, so the object with that name is updated in place. -/
def updateByName (cars : List Car) (n : String) (f : Car → Car) : List Car :=
  cars.map (fun c => if c.name == n then f c else c)

/-- Every call of `self.get_leaderboard()` refreshes `position` on every
car object of `self.cars` (the sorted list aliases them); the list `cars`
keeps its order, each car receiving its leaderboard rank. -/
def applyPositions (cars : List Car) : List Car :=
  cars.map (fun c => { c with position := rankOf cars c.name })

/-- Python dict assignment `d[k] = v` on an insertion-ordered association
list: overwrite in place if the key exists, else append. -/
def insertKV (l : List (String × URecord)) (k : String) (v : URecord) :
    List (String × URecord) :=
  if l.any (fun q => q.1 == k) then
    l.map (fun q => if q.1 == k then (k, v) else q)
  else l ++ [(k, v)]

/-- The `for pitstop in history: if pitstop.get('lap') == lap: ...; break`
write pattern: update the first history entry with the given lap (no entry
matches → no write). -/
def updateFirstLap (hist : List Pitstop) (lap : ℤ) (f : Pitstop → Pitstop) :
    List Pitstop :=
  match hist with
  | [] => []
  | q :: rest => if q.lap = lap then f q :: rest else q :: updateFirstLap rest lap f

/-- Update `pitstop_history[-1]` (empty history → no write; the call site
guards on a non-empty history). -/
def updateLast (hist : List Pitstop) (f : Pitstop → Pitstop) : List Pitstop :=
  match hist.getLast? with
  | none => []
  | some q => hist.dropLast ++ [f q]

/-- The shared mutable simulation state touched by the undercut
bookkeeping: `self.cars` and `self.pending_undercuts`. -/
structure SimState where
  cars : List Car
  pending : List Pending
deriving Repr, DecidableEq

/-- `for i, pending in enumerate(lst): if pred(pending): collect (i, pending)`
— the enumerate-and-filter pattern of server.py lines 994-996 and 1065-1067. -/
def enumMatched (pred : Pending → Bool) : List Pending → List (ℕ × Pending)
  | [] => []
  | x :: rest =>
    (if pred x then [((0 : ℕ), x)] else []) ++
      (enumMatched pred rest).map (fun ip => (ip.1 + 1, ip.2))

/-- The source's collect-indices-then-`pop`-in-reverse-order deletion
pattern (server.py lines 993-998 and 1065-1070 both use it): erase the
indices of the entries matching `pred`, largest index first. -/
def popMatchedDesc (pred : Pending → Bool) (l : List Pending) : List Pending :=
  (((enumMatched pred l).map Prod.fst).reverse).foldl
    (fun acc i => acc.eraseIdx i) l

/-- The compound classes compared by the undercut pairing criterion. -/
def isDryCompound (t : String) : Bool := t == "SOFT" || t == "MEDIUM" || t == "HARD"

/-- `RaceSim.check_for_pending_undercuts` (server.py lines 978-1051):
drop stale pendings initiated by this car, then for every other car on
track create a pending undercut if racing closely (≤5s), same lap, within
2 positions, on matching compound classes — unless a pending battle for
the same unordered pair already exists.
One loop iteration (`for other_car in sorted_cars`) is `checkStep`. -/
def checkStep (car : Car) (carRank : ℤ) (acc : List Pending) (other : Car) :
    List Pending :=
  if other.name == car.name || other.on_pit then acc
  else
    let time_gap := other.total_time - car.total_time
    let position_diff := |carRank - other.position|
    let tire_types_match := (car.tyre == other.tyre) ||
      (isDryCompound car.tyre && isDryCompound other.tyre)
    if |time_gap| ≤ 5 ∧ |other.laps_completed - car.laps_completed| = 0 ∧
        position_diff ≤ 2 ∧ tire_types_match = true then
      if acc.any (fun p => (p.driver_a == car.name && p.driver_b == other.name) ||
          (p.driver_a == other.name && p.driver_b == car.name)) then acc
      else acc ++ [{ driver_a := car.name, driver_b := other.name,
                     a_pit_lap := car.laps_completed,
                     gap_before := round2 time_gap,
                     tire_a := car.tyre, tire_b := other.tyre,
                     a_position := carRank, b_position := other.position }]
    else acc

/-- The method itself: clean stale pendings, then fold `checkStep` over the
sorted leaderboard. -/
def check_for_pending_undercuts (st : SimState) (car : Car) : SimState :=
  let cars1 := applyPositions st.cars
  let sorted := sortCars cars1
  let carRank := rankOf st.cars car.name
  let pending1 := popMatchedDesc (fun p => p.driver_a == car.name) st.pending
  { cars := cars1, pending := sorted.foldl (checkStep car carRank) pending1 }

/-- The effect of one battle of `finalize_undercut_battles` on the cars:
if both drivers resolve in the sorted leaderboard and the swing is
material (≥ 1s), write the two sign-inverted records; otherwise no
history is written. -/
def finalizeBattleCars (sorted : List Car) (current_tire : String)
    (cars : List Car) (p : Pending) : List Car :=
  match findByName sorted p.driver_a, findByName sorted p.driver_b with
  | some driver_a, some driver_b =>
    let gap_after := driver_b.total_time - driver_a.total_time
    let gap_before := p.gap_before
    let undercut_time := gap_before - gap_after
    if |undercut_time| < 1 then cars
    else
      let tire_a := p.tire_a
      let tire_b := current_tire
      let tire_factor := TYRE_BASE tire_b 0.90 - TYRE_BASE tire_a 0.90
      let position_a := driver_a.position
      let position_b := driver_b.position
      let recA : URecord :=
        { time_gain := round2 undercut_time,
          position_before := p.a_position, position_after := position_a,
          position_change := p.a_position - position_a,
          other_position := position_b,
          time_gap_before := round2 gap_before, time_gap_after := round2 gap_after,
          tire_a := tire_a, tire_b := tire_b, tire_factor := round3 tire_factor,
          undercut_type := if undercut_time > 0 then "success" else "failed" }
      let recB : URecord :=
        { time_gain := round2 (-undercut_time),
          position_before := p.b_position, position_after := position_b,
          position_change := p.b_position - position_b,
          other_position := position_a,
          time_gap_before := round2 (-gap_before), time_gap_after := round2 (-gap_after),
          tire_a := tire_b, tire_b := tire_a, tire_factor := round3 (-tire_factor),
          undercut_type := if undercut_time > 0 then "undercut" else "defended" }
      let fA : Pitstop → Pitstop :=
        fun ps => { ps with undercuts := insertKV ps.undercuts p.driver_b recA }
      let fB : Pitstop → Pitstop :=
        fun ps => { ps with undercuts := insertKV ps.undercuts p.driver_a recB }
      let carsA := updateByName cars p.driver_a (fun c =>
        { c with pitstop_history := updateFirstLap c.pitstop_history p.a_pit_lap fA })
      updateByName carsA p.driver_b (fun c =>
        if c.pitstop_history.isEmpty then c
        else { c with pitstop_history := updateLast c.pitstop_history fB })
  | _, _ => cars

/-- One battle of `finalize_undercut_battles`: the pending entry is popped
in every branch of the source (invalid lookup, immaterial swing, or
finalized), and the cars are updated per `finalizeBattleCars`. -/
def finalizeBattle (sorted : List Car) (current_tire : String)
    (acc : SimState) (ip : ℕ × Pending) : SimState :=
  { cars := finalizeBattleCars sorted current_tire acc.cars ip.2,
    pending := acc.pending.eraseIdx ip.1 }

/-- `RaceSim.finalize_undercut_battles` (server.py lines 1053-1164), called
with the car that just left the pits (its `tyre` is the fresh compound):
refresh positions, collect the pendings naming this car as `driver_b`
(index ascending), and process them in reverse order, popping each. -/
def finalize_undercut_battles (st : SimState) (car : Car) : SimState :=
  let cars1 := applyPositions st.cars
  let sorted := sortCars cars1
  let battles := (enumMatched (fun p => p.driver_b == car.name) st.pending).reverse
  battles.foldl (finalizeBattle sorted car.tyre) { cars := cars1, pending := st.pending }

/-- Unordered-pair equality of pending battles — the duplicate check of
server.py lines 1032-1037 matches `(driver_a, driver_b)` in either order. -/
def samePair (p q : Pending) : Prop :=
  (p.driver_a = q.driver_a ∧ p.driver_b = q.driver_b) ∨
    (p.driver_a = q.driver_b ∧ p.driver_b = q.driver_a)

/-- At most one pending undercut battle per unordered driver pair. -/
def AtMostOnePerPair (l : List Pending) : Prop :=
  l.Pairwise (fun p q => ¬ samePair p q)

lemma foldl_eraseIdx_map_add_one (idxs : List ℕ) (x : Pending) (l : List Pending) :
    ((idxs.map (fun i => i + 1)).foldl (fun acc i => acc.eraseIdx i) (x :: l)) =
      x :: idxs.foldl (fun acc i => acc.eraseIdx i) l := by
  induction idxs generalizing l with
  | nil => rfl
  | cons i rest ih =>
    simp only [List.map_cons, List.foldl_cons, List.eraseIdx_cons_succ]
    exact ih _

lemma popMatchedDesc_eq_filter (pred : Pending → Bool) (l : List Pending) :
    popMatchedDesc pred l = l.filter (fun p => !(pred p)) := by
  induction l with
  | nil => rfl
  | cons x rest ih =>
    unfold popMatchedDesc at ih ⊢
    simp only [enumMatched, List.map_append, List.map_map, List.reverse_append]
    have hmapmap : ∀ m : List (ℕ × Pending),
        m.map (Prod.fst ∘ fun ip => (ip.1 + 1, ip.2)) =
          (m.map Prod.fst).map (fun i => i + 1) := by
      intro m; rw [List.map_map]; rfl
    rw [hmapmap]
    have hrev : (((enumMatched pred rest).map Prod.fst).map (fun i => i + 1)).reverse =
        (((enumMatched pred rest).map Prod.fst).reverse).map (fun i => i + 1) := by
      simp [List.map_reverse]
    rw [hrev]
    cases hx : pred x with
    | true =>
      rw [if_pos rfl]
      simp only [List.map_cons, List.map_nil, List.reverse_singleton]
      rw [List.foldl_append, foldl_eraseIdx_map_add_one, ih]
      simp [List.filter_cons, hx]
    | false =>
      rw [if_neg (by simp)]
      simp only [List.map_nil, List.reverse_nil, List.append_nil]
      rw [foldl_eraseIdx_map_add_one, ih]
      simp [List.filter_cons, hx]

lemma finalizeBattle_pending (sorted : List Car) (tire : String)
    (acc : SimState) (ip : ℕ × Pending) :
    (finalizeBattle sorted tire acc ip).pending = acc.pending.eraseIdx ip.1 := rfl

lemma finalize_pending_proj (sorted : List Car) (tire : String)
    (battles : List (ℕ × Pending)) :
    ∀ acc : SimState,
      (battles.foldl (finalizeBattle sorted tire) acc).pending =
        (battles.map Prod.fst).foldl (fun l i => l.eraseIdx i) acc.pending := by
  induction battles with
  | nil => intro acc; rfl
  | cons ip rest ih =>
    intro acc
    simp only [List.foldl_cons, List.map_cons]
    rw [ih, finalizeBattle_pending]

lemma finalize_pending_filter (st : SimState) (car : Car) :
    (finalize_undercut_battles st car).pending =
      st.pending.filter (fun p => !(p.driver_b == car.name)) := by
  have h := popMatchedDesc_eq_filter (fun p => p.driver_b == car.name) st.pending
  unfold popMatchedDesc at h
  unfold finalize_undercut_battles
  rw [finalize_pending_proj, List.map_reverse]
  exact h

lemma checkStep_invariant (car : Car) (carRank : ℤ) (acc : List Pending)
    (other : Car) (h : AtMostOnePerPair acc) :
    AtMostOnePerPair (checkStep car carRank acc other) := by
  simp only [checkStep]
  split_ifs with h1 h2 h3
  · exact h
  · exact h
  · unfold AtMostOnePerPair at h ⊢
    rw [List.pairwise_append]
    refine ⟨h, List.pairwise_singleton _ _, ?_⟩
    intro q hq b hb hsp
    simp only [List.mem_singleton] at hb
    subst hb
    rw [List.any_eq_true] at h3
    apply h3
    refine ⟨q, hq, ?_⟩
    unfold samePair at hsp
    simp only at hsp
    rcases hsp with ⟨e1, e2⟩ | ⟨e1, e2⟩ <;> simp [e1, e2]
  · exact h

lemma foldl_checkStep_invariant (car : Car) (carRank : ℤ) (others : List Car) :
    ∀ acc : List Pending, AtMostOnePerPair acc →
      AtMostOnePerPair (others.foldl (checkStep car carRank) acc) := by
  induction others with
  | nil => intro acc h; exact h
  | cons o rest ih =>
    intro acc h
    exact ih _ (checkStep_invariant car carRank acc o h)

lemma check_pending_invariant (st : SimState) (car : Car)
    (h : AtMostOnePerPair st.pending) :
    AtMostOnePerPair (check_for_pending_undercuts st car).pending := by
  unfold check_for_pending_undercuts
  apply foldl_checkStep_invariant
  rw [popMatchedDesc_eq_filter]
  exact h.filter _

/-- The pending-undercuts lists reachable through the two operations that
touch `pending_undercuts`: the list starts empty, `check` runs at each pit
entry and `finalize` at each pit exit, with arbitrary surrounding car
state. -/
inductive PendingReach : List Pending → Prop where
  | init : PendingReach []
  | step_check (cars : List Car) (P : List Pending) (car : Car) :
      PendingReach P → PendingReach (check_for_pending_undercuts ⟨cars, P⟩ car).pending
  | step_finalize (cars : List Car) (P : List Pending) (car : Car) :
      PendingReach P → PendingReach (finalize_undercut_battles ⟨cars, P⟩ car).pending

/-- C2: in every reachable state, the pending-undercut list holds at most
one entry per unordered driver pair (creation is guarded by the
duplicate check, and the operations otherwise only delete entries); and
`finalize_undercut_battles` consumes every pending entry naming the
finalizing car as `driver_b` — each is popped exactly once, whether it was
finalized into the histories or discarded — leaving exactly the
non-matching entries, so no pair can be finalized twice from the same
pit-entry event. -/
theorem C2_pending_unique_and_consumed :
    (∀ P : List Pending, PendingReach P → AtMostOnePerPair P) ∧
    (∀ (st : SimState) (car : Car),
      (finalize_undercut_battles st car).pending =
        st.pending.filter (fun p => !(p.driver_b == car.name))) := by
  constructor
  · intro P h
    induction h with
    | init => exact List.Pairwise.nil
    | step_check cars P car _ ih => exact check_pending_invariant ⟨cars, P⟩ car ih
    | step_finalize cars P car _ ih =>
      rw [finalize_pending_filter]
      exact ih.filter _
  · exact finalize_pending_filter

/-- Witness for C2: the pending list produced by a concrete pit-entry check
on a two-car state is reachable and satisfies the per-pair uniqueness
invariant. -/
theorem C2_pending_unique_and_consumed_witness :
    AtMostOnePerPair (check_for_pending_undercuts
      ⟨[{ defaultCar with name := "A" }, { defaultCar with name := "B" }], []⟩
      { defaultCar with name := "A" }).pending :=
  C2_pending_unique_and_consumed.1 _
    (PendingReach.step_check
      [{ defaultCar with name := "A" }, { defaultCar with name := "B" }] []
      { defaultCar with name := "A" } PendingReach.init)

/-- The undercut record a car holds against `k` in the first
pitstop-history entry with the given lap (the entry `finalize` writes for
driver A). -/
def histUndercutAt (c : Car) (lap : ℤ) (k : String) : Option URecord :=
  match c.pitstop_history.find? (fun ps => ps.lap == lap) with
  | none => none
  | some ps => (ps.undercuts.find? (fun q => q.1 == k)).map Prod.snd

/-- The undercut record a car holds against `k` in its last
pitstop-history entry (the entry `finalize` writes for driver B). -/
def lastUndercut (c : Car) (k : String) : Option URecord :=
  match c.pitstop_history.getLast? with
  | none => none
  | some ps => (ps.undercuts.find? (fun q => q.1 == k)).map Prod.snd

lemma find_updateFirstLap (lap : ℤ) (f : Pitstop → Pitstop)
    (hf : ∀ ps, (f ps).lap = ps.lap) (hist : List Pitstop) :
    (updateFirstLap hist lap f).find? (fun ps => ps.lap == lap) =
      (hist.find? (fun ps => ps.lap == lap)).map f := by
  induction hist with
  | nil => rfl
  | cons q rest ih =>
    unfold updateFirstLap
    by_cases hq : q.lap = lap
    · rw [if_pos hq]
      rw [List.find?_cons_of_pos _ (by simp [hf, hq]),
        List.find?_cons_of_pos _ (by simp [hq])]
      rfl
    · rw [if_neg hq]
      rw [List.find?_cons_of_neg _ (by simp [hq]),
        List.find?_cons_of_neg _ (by simp [hq])]
      exact ih

lemma find_updateFirstLap_undercuts (lap : ℤ)
    (g : Pitstop → List (String × URecord)) (hist : List Pitstop) :
    (updateFirstLap hist lap
        (fun ps => { ps with undercuts := g ps })).find? (fun ps => ps.lap == lap) =
      (hist.find? (fun ps => ps.lap == lap)).map
        (fun ps => { ps with undercuts := g ps }) :=
  find_updateFirstLap lap (fun ps => { ps with undercuts := g ps }) (fun _ => rfl) hist

lemma find_map_overwrite (k : String) (v : URecord) :
    ∀ l : List (String × URecord), l.any (fun q => q.1 == k) = true →
      (((l.map (fun q => if q.1 == k then (k, v) else q)).find?
        (fun q => q.1 == k)).map Prod.snd) = some v := by
  intro l
  induction l with
  | nil => intro h; simp at h
  | cons q rest ih =>
    intro h
    simp only [List.map_cons]
    by_cases hq : (q.1 == k) = true
    · rw [if_pos hq, List.find?_cons_of_pos _ (by simp)]
      rfl
    · rw [if_neg hq, List.find?_cons_of_neg _ (by simp [hq])]
      apply ih
      simp only [List.any_cons, Bool.or_eq_true] at h
      rcases h with h | h
      · exact absurd h hq
      · exact h

lemma find_append_new (k : String) (v : URecord) :
    ∀ l : List (String × URecord), l.any (fun q => q.1 == k) = false →
      (((l ++ [(k, v)]).find? (fun q => q.1 == k)).map Prod.snd) = some v := by
  intro l
  induction l with
  | nil => simp
  | cons q rest ih =>
    intro h
    simp only [List.any_cons, Bool.or_eq_false_iff] at h
    simp only [List.cons_append]
    rw [List.find?_cons_of_neg _ (by simp [h.1])]
    exact ih h.2

lemma find_insertKV (l : List (String × URecord)) (k : String) (v : URecord) :
    ((insertKV l k v).find? (fun q => q.1 == k)).map Prod.snd = some v := by
  unfold insertKV
  by_cases hany : l.any (fun q => q.1 == k) = true
  · rw [if_pos hany]
    exact find_map_overwrite k v l hany
  · rw [if_neg hany]
    exact find_append_new k v l (Bool.not_eq_true _ ▸ Bool.eq_false_iff.mpr hany)

lemma getLast_updateLast (f : Pitstop → Pitstop) (hist : List Pitstop)
    (q : Pitstop) (hq : hist.getLast? = some q) :
    (updateLast hist f).getLast? = some (f q) := by
  unfold updateLast
  rw [hq]
  exact List.getLast?_concat _

/-- C1: undercut finalization, triggered when the second driver of a
pending pair exits the pits, computes the swing as pre-pit gap minus
post-pit gap.  The pending entry is always consumed; if the swing's
magnitude is below the 1-second materiality threshold (e.g. 0.9s) it is
discarded and no record is written into either car's pit-stop history,
and otherwise (e.g. 1.1s) sign-inverted outcome records are written into
both cars' histories — for A (who pitted first) into the entry of its
pit-entry lap as success/failed, for B into its latest entry as
undercut/defended, with `time_gain` values negatives of each other. -/
theorem C1_undercut_finalization (A B : Car) (p : Pending)
    (hname : A.name ≠ B.name)
    (hpa : p.driver_a = A.name) (hpb : p.driver_b = B.name)
    (hAhist : ∃ ps ∈ A.pitstop_history, ps.lap = p.a_pit_lap)
    (hBhist : B.pitstop_history ≠ []) :
    (finalize_undercut_battles ⟨[A, B], [p]⟩ B).pending = [] ∧
    (|p.gap_before - (B.total_time - A.total_time)| < 1 →
      (finalize_undercut_battles ⟨[A, B], [p]⟩ B).cars.map (fun c => c.pitstop_history) =
        [A.pitstop_history, B.pitstop_history]) ∧
    (1 ≤ |p.gap_before - (B.total_time - A.total_time)| →
      ∃ cA cB, cA ∈ (finalize_undercut_battles ⟨[A, B], [p]⟩ B).cars ∧
        cB ∈ (finalize_undercut_battles ⟨[A, B], [p]⟩ B).cars ∧
        cA.name = A.name ∧ cB.name = B.name ∧
        ∃ rA rB, histUndercutAt cA p.a_pit_lap B.name = some rA ∧
          lastUndercut cB A.name = some rB ∧
          rA.time_gain = round2 (p.gap_before - (B.total_time - A.total_time)) ∧
          rB.time_gain = -rA.time_gain ∧
          rA.undercut_type = (if 0 < p.gap_before - (B.total_time - A.total_time)
            then "success" else "failed") ∧
          rB.undercut_type = (if 0 < p.gap_before - (B.total_time - A.total_time)
            then "undercut" else "defended")) := by
  have hAB : (A.name == B.name) = false := by simp [hname]
  have hBA : (B.name == A.name) = false := by simp [Ne.symm hname]
  have hbat : enumMatched (fun q => q.driver_b == B.name) [p] = [(0, p)] := by
    simp [enumMatched, hpb]
  set A1 : Car := { A with position := rankOf [A, B] A.name } with hA1
  set B1 : Car := { B with position := rankOf [A, B] B.name } with hB1
  have happ : applyPositions [A, B] = [A1, B1] := rfl
  have hcars : (finalize_undercut_battles ⟨[A, B], [p]⟩ B).cars =
      finalizeBattleCars (sortCars [A1, B1]) B.tyre [A1, B1] p := by
    unfold finalize_undercut_battles
    rw [hbat]
    simp [finalizeBattle, happ]
  have hpend : (finalize_undercut_battles ⟨[A, B], [p]⟩ B).pending = [] := by
    rw [finalize_pending_filter]
    simp [hpb]
  have hfind : findByName (sortCars [A1, B1]) A.name = some A1 ∧
      findByName (sortCars [A1, B1]) B.name = some B1 := by
    by_cases hord : carLE A1 B1
    · have hs : sortCars [A1, B1] = [A1, B1] := by
        simp [sortCars, List.orderedInsert, hord]
      rw [hs]
      constructor
      · simp [findByName, List.find?, hA1]
      · simp [findByName, List.find?, hA1, hB1, hAB]
    · have hs : sortCars [A1, B1] = [B1, A1] := by
        simp [sortCars, List.orderedInsert, hord]
      rw [hs]
      constructor
      · simp [findByName, List.find?, hA1, hB1, hBA]
      · simp [findByName, List.find?, hB1]
  obtain ⟨hfA, hfB⟩ := hfind
  refine ⟨hpend, ?_, ?_⟩
  · intro hsmall
    rw [hcars]
    unfold finalizeBattleCars
    rw [hpa, hpb, hfA, hfB]
    dsimp only
    have htA : A1.total_time = A.total_time := by rw [hA1]
    have htB : B1.total_time = B.total_time := by rw [hB1]
    rw [htA, htB, if_pos hsmall]
    simp [hA1, hB1]
  · intro hbig
    have hBempty : B.pitstop_history.isEmpty = false := by
      cases hB : B.pitstop_history with
      | nil => exact absurd hB hBhist
      | cons a l => rfl
    rw [hcars]
    unfold finalizeBattleCars
    rw [hpa, hpb, hfA, hfB]
    dsimp only
    have htA : A1.total_time = A.total_time := by rw [hA1]
    have htB : B1.total_time = B.total_time := by rw [hB1]
    rw [htA, htB, if_neg (not_lt.mpr hbig)]
    simp only [updateByName, List.map_cons, List.map_nil, hA1, hB1]
    simp only [beq_self_eq_true, hAB, hBA, Bool.false_eq_true, if_true, if_false,
      hBempty, List.isEmpty_cons]
    refine ⟨_, _, List.mem_cons_self _ _,
      List.mem_cons_of_mem _ (List.mem_cons_self _ _), ?_, ?_, ?_⟩
    · simp
    · simp [hBempty]
    · obtain ⟨ps0, hm0, hl0⟩ := hAhist
      have hsomeq : (A.pitstop_history.find? (fun ps => ps.lap == p.a_pit_lap)).isSome := by
        rw [List.find?_isSome]
        exact ⟨ps0, hm0, by simp [hl0]⟩
      obtain ⟨q0, hq0⟩ := Option.isSome_iff_exists.mp hsomeq
      obtain ⟨qB, hqB⟩ := Option.isSome_iff_exists.mp
        (List.getLast?_isSome.mpr hBhist)
      refine
        ⟨{ time_gain := round2 (p.gap_before - (B.total_time - A.total_time)),
           position_before := p.a_position, position_after := rankOf [A, B] A.name,
           position_change := p.a_position - rankOf [A, B] A.name,
           other_position := rankOf [A, B] B.name,
           time_gap_before := round2 p.gap_before,
           time_gap_after := round2 (B.total_time - A.total_time),
           tire_a := p.tire_a, tire_b := B.tyre,
           tire_factor := round3 (TYRE_BASE B.tyre 0.90 - TYRE_BASE p.tire_a 0.90),
           undercut_type := if p.gap_before - (B.total_time - A.total_time) > 0
             then "success" else "failed" },
         { time_gain := round2 (-(p.gap_before - (B.total_time - A.total_time))),
           position_before := p.b_position, position_after := rankOf [A, B] B.name,
           position_change := p.b_position - rankOf [A, B] B.name,
           other_position := rankOf [A, B] A.name,
           time_gap_before := round2 (-p.gap_before),
           time_gap_after := round2 (-(B.total_time - A.total_time)),
           tire_a := B.tyre, tire_b := p.tire_a,
           tire_factor := round3 (-(TYRE_BASE B.tyre 0.90 - TYRE_BASE p.tire_a 0.90)),
           undercut_type := if p.gap_before - (B.total_time - A.total_time) > 0
             then "undercut" else "defended" }, ?_, ?_, rfl, round2_neg _, rfl, rfl⟩
      · unfold histUndercutAt
        dsimp only
        rw [find_updateFirstLap_undercuts, hq0]
        simp only [Option.map_some']
        exact find_insertKV _ _ _
      · unfold lastUndercut
        rw [getLast_updateLast _ _ qB hqB]
        exact find_insertKV _ _ _

/-- A two-car scenario for the C1 witness: driver A (already pitted on lap
5) against driver B, with a pre-pit gap of 1.1s and equal elapsed times. -/
def carA0 : Car :=
  { defaultCar with
    name := "A",
    pitstop_history := [{ lap := 5, tyre := "MEDIUM", pit_time := 22,
                          new_tyre := none, undercuts := [] }] }

/-- Driver B of the C1 witness scenario. -/
def carB0 : Car :=
  { defaultCar with
    name := "B",
    pitstop_history := [{ lap := 6, tyre := "MEDIUM", pit_time := 22,
                          new_tyre := none, undercuts := [] }] }

/-- The pending battle of the C1 witness scenario (swing 1.1s). -/
def pend0 : Pending :=
  { driver_a := "A", driver_b := "B", a_pit_lap := 5,
    gap_before := 1.1, tire_a := "MEDIUM", tire_b := "MEDIUM",
    a_position := 1, b_position := 2 }

/-- Witness for C1 at a concrete swing of 1.1s. -/
theorem C1_undercut_finalization_witness :
    (finalize_undercut_battles ⟨[carA0, carB0], [pend0]⟩ carB0).pending = [] ∧
    (|pend0.gap_before - (carB0.total_time - carA0.total_time)| < 1 →
      (finalize_undercut_battles ⟨[carA0, carB0], [pend0]⟩ carB0).cars.map
          (fun c => c.pitstop_history) =
        [carA0.pitstop_history, carB0.pitstop_history]) ∧
    (1 ≤ |pend0.gap_before - (carB0.total_time - carA0.total_time)| →
      ∃ cA cB, cA ∈ (finalize_undercut_battles ⟨[carA0, carB0], [pend0]⟩ carB0).cars ∧
        cB ∈ (finalize_undercut_battles ⟨[carA0, carB0], [pend0]⟩ carB0).cars ∧
        cA.name = carA0.name ∧ cB.name = carB0.name ∧
        ∃ rA rB, histUndercutAt cA pend0.a_pit_lap carB0.name = some rA ∧
          lastUndercut cB carA0.name = some rB ∧
          rA.time_gain = round2 (pend0.gap_before - (carB0.total_time - carA0.total_time)) ∧
          rB.time_gain = -rA.time_gain ∧
          rA.undercut_type = (if 0 < pend0.gap_before - (carB0.total_time - carA0.total_time)
            then "success" else "failed") ∧
          rB.undercut_type = (if 0 < pend0.gap_before - (carB0.total_time - carA0.total_time)
            then "undercut" else "defended")) :=
  C1_undercut_finalization carA0 carB0 pend0 (by decide) (by decide) (by decide)
    (by decide) (by decide)

/-- The per-race parameters and environment of `RaceSim` read by `step`:
the fixed physics step `dt` (0.5 in the source), the weather record, the
lap target, the current simulated time `self.time`, and the track
tables. -/
structure Params where
  dt : ℚ
  rain : ℚ
  track_temp : ℚ
  wind : ℚ
  total_laps : ℤ
  time : ℚ
  track : Track
deriving Repr, DecidableEq

/-- `RaceSim.tyre_grip_coeff` (server.py lines 409-421). -/
def tyre_grip_coeff (P : Params) (car : Car) : ℚ :=
  let base := TYRE_BASE car.tyre 0.95
  let grip := base * (1 - 0.6 * car.wear)
  let grip := if car.tyre = "WET" then grip * (1.0 + 0.5 * P.rain)
              else grip * (1.0 - 0.9 * P.rain)
  let combined_skill := 0.7 * car.driver_skill + 0.3 * car.car_skill
  let grip := grip * (0.8 + 0.4 * combined_skill)
  max grip 0.05

/-- `RaceSim.straight_speed` (server.py lines 441-474).  The wear/grip
factor is applied twice, as the source's duplicated line 452/454 does;
the source also computes an unused `mass_penalty = (mass ratio) ** 0.5`
(dead code involving a real square root), which has no effect and is
omitted. -/
def straight_speed (P : Params) (car : Car) : ℚ :=
  let combined_skill := 0.6 * car.driver_skill + 0.4 * car.car_skill
  let base := 80.0 + 20.0 * combined_skill
  let base := base * (1 - 0.25 * P.rain)
  let tyre_speed_multiplier := TYRE_BASE car.tyre 0.95
  let base := base * (0.90 + 0.15 * tyre_speed_multiplier)
  let base := base * (0.95 + 0.1 * tyre_grip_coeff P car)
  let base := base * (0.95 + 0.1 * tyre_grip_coeff P car)
  let fuel_factor := 1.0 - (car.fuel / car.fuel_capacity) * 0.045
  let base := base * fuel_factor
  if car.drs_active then base * 1.10 else base

/-- `RaceSim.error_probability` (server.py lines 476-497). -/
def error_probability (P : Params) (car : Car) : ℚ :=
  let skill_factor := 1 - car.driver_skill
  let base := 0.00005 + 0.0003 * skill_factor
  let rain_factor := if car.tyre = "WET" then 0.3 * P.rain else 4 * P.rain
  min (base * (1 + rain_factor + 6 * car.wear + car.aggression)) 0.5

/-- `sorted_cars[i]` for the integer indices arising from
`next(..., -1) + 1` and guarded `- 1`; every reachable access is
in range and non-negative (out-of-range reads return a default car). -/
def getAt (l : List Car) (i : ℤ) : Car := l.getD i.toNat defaultCar

/-- `next((i for i, c in enumerate(sorted_cars) if c == car), -1)`:
`CarState` defines no custom equality, so the comparison is object
identity; cars are identified by their driver names, which are distinct
in the roster. -/
def findIdxZ (l : List Car) (car : Car) : ℤ :=
  match l.findIdx? (fun c => c.name == car.name) with
  | some i => (i : ℤ)
  | none => -1

/-- Python's `g and g > x` on an optional gap: `None` is falsy, and a gap
exceeding a positive bound is necessarily truthy. -/
def optGT (g : Option ℚ) (x : ℚ) : Bool :=
  match g with
  | some gb => decide (x < gb)
  | none => false

/-- `RaceSim.pitstop_probability` (server.py lines 499-622). -/
def pitstop_probability (P : Params) (cars : List Car) (car : Car) : ℚ :=
  let laps_remaining := P.total_laps - car.laps_completed
  if laps_remaining ≤ 3 then 0.0
  else if car.wear < 0.8 ∧ car.fuel > 10.0 then 0.0
  else if car.fuel < 5.0 then 1.0
  else
    let sorted_cars := get_leaderboard cars
    let car_position := findIdxZ sorted_cars car
    let track_length := P.track.total_length
    let behindData :=
      if car_position < (sorted_cars.length : ℤ) - 1 then
        let car_behind := getAt sorted_cars (car_position + 1)
        let lap_diff_behind := car_behind.laps_completed - car.laps_completed
        let distance_gap_behind :=
          (lap_diff_behind : ℚ) * track_length + (car.s - car_behind.s)
        if car.v > 0.1 then
          let gap_behind := distance_gap_behind / car.v
          (some gap_behind, decide (gap_behind < 2.0 ∧ gap_behind > 0))
        else ((none : Option ℚ), false)
      else ((none : Option ℚ), false)
    let gap_behind := behindData.1
    let fast_approaching := behindData.2
    let base_prob :=
      if car.wear < 0.85 then 0.1 + 0.1 * ((car.wear - 0.8) / 0.05)
      else if car.wear < 0.90 then 0.2 + 0.6 * ((car.wear - 0.85) / 0.05)
      else 1.0
    let base_prob :=
      if 0.8 ≤ car.wear ∧ car.wear < 0.90 then
        if optGT gap_behind 3.0 then base_prob * 0.3
        else if fast_approaching then min 1.0 (base_prob * 1.5)
        else base_prob
      else base_prob
    let base_prob :=
      if 0.80 ≤ car.wear then
        let estimated_pit_time := PIT_TIME_BASE + 1.0
        let estimated_rejoin_s := car.s
        let estimated_rejoin_time := car.total_time + estimated_pit_time
        let gap_opportunity := sorted_cars.any (fun other_car =>
          if other_car.name == car.name || other_car.on_pit then false
          else
            let time_until_rejoin := estimated_rejoin_time - P.time
            if time_until_rejoin > 0 then
              let other_car_future_s := other_car.s + other_car.v * time_until_rejoin
              let other_car_normalized :=
                (other_car.laps_completed : ℚ) * track_length + other_car_future_s
              let car_normalized :=
                (car.laps_completed : ℚ) * track_length + estimated_rejoin_s
              let gap := |other_car_normalized - car_normalized|
              if car.v > 0.1 then
                decide (2.0 ≤ gap / car.v ∧ gap / car.v ≤ 5.0)
              else false
            else false)
        if gap_opportunity ∧ 0.85 ≤ car.wear then min 1.0 (base_prob * 1.3)
        else base_prob
      else base_prob
    let cars_in_pit := cars.countP (fun c => c.on_pit)
    let base_prob :=
      if 3 ≤ cars_in_pit ∧ 0.8 ≤ car.wear ∧ car.wear < 0.90 then base_prob * 0.5
      else base_prob
    if 0.90 ≤ car.wear then min 1.0 base_prob else base_prob

/-- C3 (amended): the per-tick pit probability is 0 whenever 3 or fewer
laps remain — including fuel-critical cars, which the code does not
except; below the 0.8 wear floor it is 0 only when fuel also exceeds 10
units; and with fuel below the 5-unit critical floor (and more than 3
laps remaining) it equals 1.0 at any tire wear, including zero. -/
theorem C3_pit_probability_gates (P : Params) (cars : List Car) (car : Car) :
    (P.total_laps - car.laps_completed ≤ 3 → pitstop_probability P cars car = 0) ∧
    (3 < P.total_laps - car.laps_completed → car.wear < 0.8 → car.fuel > 10.0 →
      pitstop_probability P cars car = 0) ∧
    (3 < P.total_laps - car.laps_completed → car.fuel < 5.0 →
      pitstop_probability P cars car = 1) := by
  refine ⟨?_, ?_, ?_⟩
  · intro h
    unfold pitstop_probability
    rw [if_pos h]
    norm_num
  · intro h hw hf
    unfold pitstop_probability
    rw [if_neg (not_le.mpr h), if_pos ⟨hw, hf⟩]
    norm_num
  · intro h hf
    unfold pitstop_probability
    rw [if_neg (not_le.mpr h), if_neg ?hc, if_pos hf]
    · norm_num
    case hc =>
      rintro ⟨-, hf10⟩
      linarith

/-- A flat 100m test track shared by the concrete scenarios below. -/
def track0 : Track :=
  { s_arclen := [0, 100], ss := [0, 1], curvature := [0, 0], total_length := 100 }

/-- Baseline parameters for the concrete scenarios: dry weather, `dt` 0.5,
36 laps. -/
def params0 : Params :=
  { dt := 0.5, rain := 0, track_temp := 25, wind := 0, total_laps := 36,
    time := 0, track := track0 }

/-- Witness car for C3: fuel-critical (4 units), zero wear, race start. -/
def car3w : Car :=
  { defaultCar with name := "W", fuel := 4, wear := 0 }

/-- Witness for C3: the forced-fuel-stop probability is 1.0 at zero wear
when more than 3 laps remain. -/
theorem C3_pit_probability_gates_witness :
    pitstop_probability params0 [car3w] car3w = 1 :=
  (C3_pit_probability_gates params0 [car3w] car3w).2.2
    (by norm_num [params0, car3w, defaultCar])
    (by norm_num [car3w, defaultCar])

/-- A car in the final 3 laps with critical fuel (the claim says its pit
probability is forced to 1.0; the code returns 0). -/
def car3a : Car :=
  { defaultCar with name := "X", fuel := 4, wear := 0, laps_completed := 33 }

/-- A car below the wear floor (0.79) with non-critical fuel (7 units) —
the claim says its pit probability is 0; the code returns 2/25. -/
def car3b : Car :=
  { defaultCar with name := "Y", fuel := 7, wear := 0.79 }

/-- Counterexample to C3 as stated: a fuel-critical car (fuel 4 < 5, zero
wear) in the final 3 laps gets pit probability 0, not 1.0 — the final-laps
cutoff admits no forced-fuel-stop exception; and a car below the 0.8 wear
floor whose fuel is 7 (not critical per the ~5-unit floor) gets the
positive probability 2/25, not 0. -/
theorem C3_counterexample_no_fuel_exception :
    pitstop_probability params0 [car3a] car3a = 0 ∧
      car3a.fuel < 5 ∧ car3a.wear = 0 ∧ params0.total_laps - car3a.laps_completed ≤ 3 ∧
    pitstop_probability params0 [car3b] car3b = 2 / 25 ∧
      car3b.wear < 0.8 ∧ 5 ≤ car3b.fuel := by
  refine ⟨?_, by norm_num [car3a, defaultCar], by norm_num [car3a, defaultCar],
    by norm_num [car3a, defaultCar, params0], ?_,
    by norm_num [car3b, defaultCar], by norm_num [car3b, defaultCar]⟩
  · norm_num [pitstop_probability, params0, track0, car3a, defaultCar,
      get_leaderboard, sortCars, rankOf, findIdxZ, getAt, optGT,
      List.findIdx?, List.countP, List.countP.go, List.enum, List.enumFrom,
      PIT_TIME_BASE, beq_eq_decide]
  · norm_num [pitstop_probability, params0, track0, car3b, defaultCar,
      get_leaderboard, sortCars, rankOf, findIdxZ, getAt, optGT,
      List.findIdx?, List.countP, List.countP.go, List.enum, List.enumFrom,
      PIT_TIME_BASE, beq_eq_decide]

/-- The random draws and irrational inputs consumed by one car's tick of
`RaceSim.step`.  `vCorner`/`vCornerAhead` are the values of
`cornering_speed` (server.py lines 423-439) at the current and look-ahead
curvature: that function is `sqrt(grip·k/curvature)` scaled by the mass
ratio square root and wind — an irrational expression, supplied here as an
input so the model stays in `ℚ`.  `randPit`/`randErr` are the `random()`
draws of the pit and error Bernoulli trials, `pitTyreTime` the
`get_pitstop_time()` draw, `randSev` the severity draw, `errTimer` and
`errLoss` the uniform duration/time-loss draws, and `tyreIdx` the
`random.choice` index for the post-stop compound. -/
structure Oracle where
  vCorner : ℚ
  vCornerAhead : ℚ
  randPit : ℚ
  pitTyreTime : ℚ
  randErr : ℚ
  randSev : ℚ
  errTimer : ℚ
  errLoss : ℚ
  tyreIdx : ℕ
deriving Repr, DecidableEq

/-- The time gap to the car immediately ahead on the leaderboard, as the
DRS block computes it (server.py lines 705-713). -/
def timeGapToAhead (P : Params) (sorted_cars : List Car) (car : Car) : ℚ :=
  let car_ahead := getAt sorted_cars (findIdxZ sorted_cars car - 1)
  let lap_diff := car.laps_completed - car_ahead.laps_completed
  let distance_gap := (lap_diff : ℚ) * P.track.total_length + (car_ahead.s - car.s)
  if car.v > 0.1 then distance_gap / car.v else 999.0

/-- The time gap to the race leader (server.py lines 715-721). -/
def timeGapToLeader (P : Params) (leader : Car) (car : Car) : ℚ :=
  let leader_lap_diff := car.laps_completed - leader.laps_completed
  let leader_distance_gap :=
    (leader_lap_diff : ℚ) * P.track.total_length + (leader.s - car.s)
  if car.v > 0.1 then leader_distance_gap / car.v else 999.0

/-- The DRS detection block of `RaceSim.step` (server.py lines 684-725):
DRS is granted only when the leader has completed at least 3 laps, the car
is not the leader, it sits inside the fixed zone `[0.35·L, 0.45·L]` of the
lap, and it is within (0, 1] second of both the car ahead and the
leader. -/
def drsDecision (P : Params) (sorted_cars : List Car) (car : Car) : Bool :=
  let car_position := findIdxZ sorted_cars car
  match sorted_cars with
  | [] => false
  | leader :: _ =>
    if 3 ≤ leader.laps_completed ∧ 0 < car_position then
      let track_length := P.track.total_length
      let drs_zone_start := 0.35 * track_length
      let drs_zone_end := 0.45 * track_length
      let car_s_normalized := qmod car.s track_length
      if drs_zone_start ≤ car_s_normalized ∧ car_s_normalized ≤ drs_zone_end then
        let time_gap_ahead := timeGapToAhead P sorted_cars car
        let time_gap_leader := timeGapToLeader P leader car
        decide (0 < time_gap_ahead ∧ time_gap_ahead ≤ 1.0 ∧
          0 < time_gap_leader ∧ time_gap_leader ≤ 1.0)
      else false
    else false

/-- The defensive-behavior block (server.py lines 727-758): a car holds up
a pursuer within 0.5-3s on a low-curvature section with a speed multiplier
scaling from 0.98 down to 0.92. -/
def defensiveMult (P : Params) (sorted_cars : List Car) (curv : ℚ)
    (car : Car) : ℚ :=
  if car.on_pit then 1.0
  else
    let car_position := findIdxZ sorted_cars car
    if car_position < (sorted_cars.length : ℤ) - 1 then
      let car_behind := getAt sorted_cars (car_position + 1)
      if car_behind.on_pit then 1.0
      else
        let track_length := P.track.total_length
        let lap_diff := car.laps_completed - car_behind.laps_completed
        let distance_gap := (lap_diff : ℚ) * track_length + (car.s - car_behind.s)
        let distance_gap := if distance_gap < 0 then distance_gap + track_length
                            else distance_gap
        let distance_gap := if distance_gap > track_length / 2 then
                              track_length - distance_gap
                            else distance_gap
        if car.v > 0.1 ∧ distance_gap > 0 then
          let time_gap := distance_gap / car.v
          if 0.5 ≤ time_gap ∧ time_gap ≤ 3.0 ∧ curv < 0.001 then
            min 1.0 (0.98 - 0.06 * (3.0 - time_gap) / 2.5)
          else 1.0
        else 1.0
    else 1.0

/-- The DRS-flag assignment of the racing branch (server.py lines
685-725): `drs_active` is recomputed from scratch every tick. -/
def drsStage (P : Params) (sorted_cars : List Car) (car : Car) : Car :=
  { car with drs_active := drsDecision P sorted_cars car }

/-- Speed resolution (server.py lines 727-788): defensive multiplier,
straight/cornering limits (the two cornering limits are oracle inputs, see
`Oracle`), asymmetric acceleration/braking, and the clamp to the target
ceiling. -/
def speedStage (P : Params) (o : Oracle) (sorted_cars : List Car) (curv : ℚ)
    (car : Car) : Car :=
  let dm := defensiveMult P sorted_cars curv car
  let v_corner := o.vCorner
  let v_corner_ahead := o.vCornerAhead
  let v_straight := straight_speed P car * dm
  let target_v := min v_straight (min v_corner v_corner_ahead)
  let v1 := if car.v > target_v then
              (if car.v - target_v > 5.0 then car.v - 20.0 * P.dt
               else car.v - 15.0 * P.dt)
            else if car.v < target_v then car.v + 6.0 * P.dt
            else car.v
  { car with v := max 0.0 (min v1 target_v) }

/-- Driver-error decay (server.py lines 791-798). -/
def errorDecayStage (P : Params) (car : Car) : Car :=
  if car.error_active then
    let v2 := car.v * car.error_speed_multiplier
    let t2 := car.error_timer - P.dt
    if t2 ≤ 0 then
      { car with
        v := v2, error_timer := 0, error_active := false,
        error_speed_multiplier := 1.0 }
    else { car with v := v2, error_timer := t2 }
  else car

/-- The pit-entry check (server.py lines 800-833): Bernoulli trial on the
per-tick pit probability; on entry the pit duration is
`max(tyre_time, refuel_time)`, the tank is refilled at once, the pit time
is added to `total_time`, and a fresh history entry is appended.  The
accompanying `check_for_pending_undercuts` call touches the shared pending
list and the other cars (modeled at the sim level for C2); this stage
carries the car's own mutations. -/
def pitEntryStage (P : Params) (o : Oracle) (ctxCars : List Car)
    (car : Car) : Car :=
  if ¬car.on_pit ∧ o.randPit < pitstop_probability P ctxCars car * P.dt then
    let tyre_time := o.pitTyreTime
    let fuel_needed := car.fuel_capacity - car.fuel
    let refuel_time := fuel_needed / car.refuel_rate
    let pit_time := max tyre_time refuel_time
    { car with
      on_pit := true, pit_counter := pit_time,
      fuel := car.fuel_capacity,
      position := rankOf ctxCars car.name,
      position_before_pitstop := some (rankOf ctxCars car.name),
      pitstop_lap := some car.laps_completed,
      total_time := car.total_time + pit_time,
      pitstop_count := car.pitstop_count + 1,
      pitstop_history := car.pitstop_history ++
        [{ lap := car.laps_completed, tyre := car.tyre,
           pit_time := round2 pit_time, new_tyre := none, undercuts := [] }] }
  else car

/-- Driver-error injection (server.py lines 836-883): Bernoulli trial on
`error_probability`; the severity tier fixes the speed multiplier, the
uniform duration and time-loss draws are oracle inputs, and the time loss
is added to `total_time`.  The race-events log entry is write-only output
the simulation never reads back. -/
def errorInjectStage (P : Params) (o : Oracle) (car : Car) : Car :=
  if ¬car.error_active ∧ o.randErr < error_probability P car * P.dt then
    let m := if o.randSev < 0.40 then 0.85
             else if o.randSev < 0.75 then 0.75
             else if o.randSev < 0.95 then 0.50
             else 0.20
    { car with
      error_active := true, error_speed_multiplier := m,
      error_timer := o.errTimer, total_time := car.total_time + o.errLoss }
  else car

/-- Tyre wear (server.py lines 885-892): compound-specific rate, 5% DRS
penalty, capped at 0.99. -/
def wearStage (P : Params) (car : Car) : Car :=
  let base_wear_rate := 0.0005 * (1 + 0.8 * (1 - tyre_grip_coeff P car))
  let wear_rate_multiplier := TYRE_WEAR_RATES car.tyre
  let wear_rate_multiplier := if car.drs_active then wear_rate_multiplier * 1.05
                              else wear_rate_multiplier
  { car with
    wear := min (car.wear + base_wear_rate * wear_rate_multiplier * P.dt) 0.99 }

/-- Tire-temperature evolution (server.py lines 894-935). -/
def tempStage (P : Params) (curv : ℚ) (car : Car) : Car :=
  let ambient_temp := P.track_temp
  let heat_factor := TYRE_HEAT_FACTORS car.tyre
  let is_cornering := curv > 0.002
  let is_straight := curv < 0.0005
  let heat_gen :=
    if is_cornering then 2.5 * car.v ^ 2 * curv * heat_factor + 0.3 * car.v * heat_factor
    else if is_straight then 0.15 * car.v * heat_factor
    else 0.8 * car.v * |curv| * 100 * heat_factor
  let cooling_rate := (if is_cornering then 0.02 else 0.08) * (1 + P.rain * 0.5)
  let cooling := cooling_rate * (car.tire_temp - ambient_temp) * (1 + car.v * 0.01)
  let cooling := if P.rain > 0 then
                   cooling + P.rain * 0.15 * (car.tire_temp - ambient_temp) * P.dt
                 else cooling
  let dtemp := (heat_gen - cooling) * P.dt
  { car with tire_temp := max (ambient_temp + 20) (min (car.tire_temp + dtemp) 150.0) }

/-- Fuel burn (server.py lines 937-945): fixed 0.035 L/s rate; a tank
driven strictly below zero is clamped to zero and the car stops. -/
def fuelStage (P : Params) (car : Car) : Car :=
  let fuel2 := car.fuel - 0.035 * P.dt
  if fuel2 < 0 then { car with fuel := 0, v := 0 }
  else { car with fuel := fuel2 }

/-- Distance advance and lap detection (server.py lines 947-954); setting
`race_finished` when the lap target is reached is sim-level state with no
feedback into the car. -/
def moveStage (P : Params) (car : Car) : Car :=
  let s2 := car.s + car.v * P.dt
  let L := P.track.total_length
  if ⌊s2 / L⌋ > ⌊(s2 - car.v * P.dt) / L⌋ then
    { car with s := s2, laps_completed := car.laps_completed + 1 }
  else { car with s := s2 }

/-- `self.cars` holds the live object of the car being stepped; replacing
the entry with the same name models that aliasing. -/
def replaceByName (cars : List Car) (c : Car) : List Car :=
  cars.map (fun x => if x.name == c.name then c else x)

/-- `random.choice(l)` with the oracle's index draw. -/
def choiceOf (l : List String) (i : ℕ) : String := l.getD (i % l.length) "MEDIUM"

/-- The in-pit branch of the per-car loop (server.py lines 650-679):
count the pit timer down by `dt`; on expiry select the new compound,
record it in the latest history entry, run undercut finalization (whose
own-car effects — record writes into the last history entry and the
position refresh — are taken from `finalize_undercut_battles`), then reset
wear and warm the tires. -/
def pitTickStage (P : Params) (o : Oracle) (ctxCars : List Car)
    (pending : List Pending) (car : Car) : Car :=
  let pc := car.pit_counter - P.dt
  if pc ≤ 0 then
    let laps_remaining := P.total_laps - car.laps_completed
    let newTyre := if P.rain > 0.6 then "WET"
      else if laps_remaining ≤ 6 then "SOFT"
      else if laps_remaining < 10 then choiceOf ["SOFT", "MEDIUM"] o.tyreIdx
      else choiceOf ["SOFT", "MEDIUM", "HARD"] o.tyreIdx
    let car1 := { car with
      on_pit := false, pit_counter := 0, tyre := newTyre,
      pitstop_history := updateLast car.pitstop_history
        (fun ps => { ps with new_tyre := some newTyre }) }
    let st2 := finalize_undercut_battles ⟨replaceByName ctxCars car1, pending⟩ car1
    let car2 := (findByName st2.cars car1.name).getD car1
    { car2 with
      wear := 0, tire_temp := max 80.0 (P.track_temp + 55.0),
      position_before_pitstop := none, pitstop_lap := none }
  else { car with pit_counter := pc }

/-- The body of the per-car loop of `RaceSim.step` (server.py lines
649-954) for one car: `sorted_cars` is the leaderboard view the body
consults, `ctxCars` the `self.cars` view, `pending` the pending-undercut
list.  The stages run in the source's order. -/
def stepCar (P : Params) (o : Oracle) (sorted_cars ctxCars : List Car)
    (pending : List Pending) (car : Car) : Car :=
  if car.on_pit then pitTickStage P o ctxCars pending car
  else
    let curv := curvAt P.track (s_to_u P.track car.s)
    let car1 := drsStage P sorted_cars car
    let car2 := speedStage P o sorted_cars curv car1
    let car3 := errorDecayStage P car2
    let car4 := pitEntryStage P o ctxCars car3
    let car5 := errorInjectStage P o car4
    let car6 := wearStage P car5
    let car7 := tempStage P curv car6
    let car8 := fuelStage P car7
    moveStage P car8

/-- C7: the per-tick DRS flag equals the DRS decision, which can be true
only if the race leader has completed at least 3 laps, the car (not the
leader itself) is inside the fixed geometric DRS zone
`[0.35·L, 0.45·L]` of the lap, and its time gap to both the car
immediately ahead and the leader lies in `(0, 1]` seconds; and an active
DRS flag multiplies the straight-line speed limit by exactly 1.10. -/
theorem C7_drs_eligibility_and_boost :
    (∀ (P : Params) (sorted_cars : List Car) (car : Car),
      (drsStage P sorted_cars car).drs_active = drsDecision P sorted_cars car) ∧
    (∀ (P : Params) (sorted_cars : List Car) (car : Car),
      drsDecision P sorted_cars car = true →
      ∃ leader rest, sorted_cars = leader :: rest ∧
        3 ≤ leader.laps_completed ∧
        0 < findIdxZ sorted_cars car ∧
        0.35 * P.track.total_length ≤ qmod car.s P.track.total_length ∧
        qmod car.s P.track.total_length ≤ 0.45 * P.track.total_length ∧
        0 < timeGapToAhead P sorted_cars car ∧
        timeGapToAhead P sorted_cars car ≤ 1.0 ∧
        0 < timeGapToLeader P leader car ∧
        timeGapToLeader P leader car ≤ 1.0) ∧
    (∀ (P : Params) (car : Car),
      straight_speed P { car with drs_active := true } =
        1.10 * straight_speed P { car with drs_active := false }) := by
  refine ⟨fun P s c => rfl, ?_, ?_⟩
  · intro P sorted_cars car h
    unfold drsDecision at h
    cases sorted_cars with
    | nil => exact absurd h (by simp)
    | cons leader rest =>
      refine ⟨leader, rest, rfl, ?_⟩
      dsimp only at h
      split_ifs at h with h1 h2
      have h3 := of_decide_eq_true h
      exact ⟨h1.1, h1.2, h2.1, h2.2, h3.1, h3.2.1, h3.2.2.1, h3.2.2.2⟩
  · intro P car
    have h1 : straight_speed P { car with drs_active := true } =
        (80.0 + 20.0 * (0.6 * car.driver_skill + 0.4 * car.car_skill)) *
          (1 - 0.25 * P.rain) * (0.90 + 0.15 * TYRE_BASE car.tyre 0.95) *
          (0.95 + 0.1 * tyre_grip_coeff P car) *
          (0.95 + 0.1 * tyre_grip_coeff P car) *
          (1.0 - car.fuel / car.fuel_capacity * 0.045) * 1.10 := rfl
    have h2 : straight_speed P { car with drs_active := false } =
        (80.0 + 20.0 * (0.6 * car.driver_skill + 0.4 * car.car_skill)) *
          (1 - 0.25 * P.rain) * (0.90 + 0.15 * TYRE_BASE car.tyre 0.95) *
          (0.95 + 0.1 * tyre_grip_coeff P car) *
          (0.95 + 0.1 * tyre_grip_coeff P car) *
          (1.0 - car.fuel / car.fuel_capacity * 0.045) := rfl
    rw [h1, h2]; ring

/-- The race leader of the C7 witness scenario: three laps completed, 45m
into the lap. -/
def leadW : Car :=
  { defaultCar with name := "L", laps_completed := 3, s := 45, v := 10 }

/-- The chasing car of the C7 witness scenario: in the DRS zone at 40m,
half a second behind the leader. -/
def chaseW : Car :=
  { defaultCar with name := "C", laps_completed := 3, s := 40, v := 10 }

/-- Witness for C7: a concrete state in which the DRS decision is true,
yielding all the eligibility facts. -/
theorem C7_drs_eligibility_and_boost_witness :
    ∃ leader rest, ([leadW, chaseW] : List Car) = leader :: rest ∧
      3 ≤ leader.laps_completed ∧
      0 < findIdxZ [leadW, chaseW] chaseW ∧
      0.35 * params0.track.total_length ≤ qmod chaseW.s params0.track.total_length ∧
      qmod chaseW.s params0.track.total_length ≤ 0.45 * params0.track.total_length ∧
      0 < timeGapToAhead params0 [leadW, chaseW] chaseW ∧
      timeGapToAhead params0 [leadW, chaseW] chaseW ≤ 1.0 ∧
      0 < timeGapToLeader params0 leader chaseW ∧
      timeGapToLeader params0 leader chaseW ≤ 1.0 :=
  C7_drs_eligibility_and_boost.2.1 params0 [leadW, chaseW] chaseW (by
    have hIdx : findIdxZ [leadW, chaseW] chaseW = 1 := by decide
    have hget0 : getAt [leadW, chaseW] 0 = leadW := rfl
    have hl : leadW.laps_completed = 3 := rfl
    have hls : leadW.s = 45 := rfl
    have hcs : chaseW.s = 40 := rfl
    have hcv : chaseW.v = 10 := rfl
    have hcl : chaseW.laps_completed = 3 := rfl
    norm_num [drsDecision, timeGapToAhead, timeGapToLeader, qmod, params0,
      track0, hIdx, hget0, hl, hls, hcs, hcv, hcl])

/-- A car whose tank cannot cover one tick's burn at `dt = 0.5`. -/
def car9w : Car :=
  { defaultCar with name := "F", fuel := 0.01, v := 8, s := 12 }

/-- A car whose fuel burn lands exactly on zero this tick. -/
def car9z : Car :=
  { defaultCar with name := "Z", fuel := 0.0175, v := 8, s := 12 }

/-- C9 (amended): when the fixed-rate fuel burn drives the tank strictly
below zero during a tick, the step clamps fuel to exactly 0 and zeroes the
speed, so the car advances no further and completes no lap this tick — it
stops on track immediately.  (The source guard is strict `< 0`: a burn
landing exactly on zero empties the tank without zeroing the speed, see
the counterexample.) -/
theorem C9_out_of_fuel_stop (P : Params) (car : Car)
    (h : car.fuel - 0.035 * P.dt < 0) :
    (fuelStage P car).fuel = 0 ∧ (fuelStage P car).v = 0 ∧
    (moveStage P (fuelStage P car)).s = car.s ∧
    (moveStage P (fuelStage P car)).laps_completed = car.laps_completed ∧
    (moveStage P (fuelStage P car)).v = 0 := by
  have hf : fuelStage P car = { car with fuel := 0, v := 0 } := by
    unfold fuelStage
    dsimp only
    rw [if_pos h]
  rw [hf]
  have hm : moveStage P { car with fuel := 0, v := 0 } =
      { car with fuel := 0, v := 0, s := car.s + 0 * P.dt } := by
    unfold moveStage
    dsimp only
    rw [if_neg ?hc]
    case hc => simp
  rw [hm]
  refine ⟨rfl, rfl, ?_, rfl, rfl⟩
  show car.s + 0 * P.dt = car.s
  ring

/-- Witness for C9: a car with 0.01 units of fuel at `dt = 0.5` burns past
zero; the tick leaves it with zero fuel, zero speed, and unchanged distance
and lap count. -/
theorem C9_out_of_fuel_stop_witness :
    (fuelStage params0 car9w).fuel = 0 ∧ (fuelStage params0 car9w).v = 0 ∧
    (moveStage params0 (fuelStage params0 car9w)).s = car9w.s ∧
    (moveStage params0 (fuelStage params0 car9w)).laps_completed =
      car9w.laps_completed ∧
    (moveStage params0 (fuelStage params0 car9w)).v = 0 :=
  C9_out_of_fuel_stop params0 car9w (by norm_num [car9w, defaultCar, params0])

/-- Counterexample to C9 as stated: a burn that drives the tank exactly TO
zero (not below) sets fuel to 0 but leaves the speed untouched — the car
covers 8 · 0.5 = 4 further meters this tick instead of stopping
immediately. -/
theorem C9_counterexample_exact_zero_fuel :
    (fuelStage params0 car9z).fuel = 0 ∧ (fuelStage params0 car9z).v = 8 ∧
    (moveStage params0 (fuelStage params0 car9z)).s = 16 := by
  have hz : fuelStage params0 car9z = { car9z with fuel := 0 } := by
    unfold fuelStage
    dsimp only
    rw [if_neg (by norm_num [car9z, defaultCar, params0])]
    have h0 : car9z.fuel - 0.035 * params0.dt = 0 := by
      norm_num [car9z, defaultCar, params0]
    rw [h0]
  rw [hz]
  refine ⟨rfl, rfl, ?_⟩
  norm_num [moveStage, car9z, defaultCar, params0, track0]

/-- The mid-pit branch of the per-car loop: with time still left on the
countdown, the only mutation is the decrement of `pit_counter`. -/
lemma pitTickStage_else (P : Params) (o : Oracle) (ctx : List Car)
    (pending : List Pending) (car : Car)
    (hpc : ¬car.pit_counter - P.dt ≤ 0) :
    pitTickStage P o ctx pending car =
      { car with pit_counter := car.pit_counter - P.dt } := by
  unfold pitTickStage
  dsimp only
  rw [if_neg hpc]

/-- The undercut-finalization pass rewrites only `position` and
`pitstop_history`; `coreOf` erases exactly those two fields, so equality of
`coreOf`-images states that every other field is unchanged. -/
def coreOf (c : Car) : Car := { c with position := 0, pitstop_history := [] }

lemma map_coreOf_map {f : Car → Car} (hf : ∀ c, coreOf (f c) = coreOf c)
    (l : List Car) : (l.map f).map coreOf = l.map coreOf := by
  induction l with
  | nil => rfl
  | cons x xs ih => simp only [List.map_cons, hf, ih]

lemma applyPositions_core (l : List Car) :
    (applyPositions l).map coreOf = l.map coreOf := by
  unfold applyPositions
  refine map_coreOf_map ?_ _
  intro c
  rfl

lemma updateByName_core {f : Car → Car} (hf : ∀ c, coreOf (f c) = coreOf c)
    (l : List Car) (n : String) :
    (updateByName l n f).map coreOf = l.map coreOf := by
  unfold updateByName
  apply map_coreOf_map
  intro c
  by_cases h : (c.name == n) = true
  · rw [if_pos h]
    exact hf c
  · rw [if_neg h]

lemma finalizeBattleCars_core (sorted : List Car) (t : String)
    (cars : List Car) (p : Pending) :
    (finalizeBattleCars sorted t cars p).map coreOf = cars.map coreOf := by
  unfold finalizeBattleCars
  cases hA : findByName sorted p.driver_a with
  | none => rfl
  | some a =>
    cases hB : findByName sorted p.driver_b with
    | none => rfl
    | some b =>
      dsimp only
      by_cases hlt : |p.gap_before - (b.total_time - a.total_time)| < 1
      · rw [if_pos hlt]
      · rw [if_neg hlt]
        refine (updateByName_core ?_ _ _).trans (updateByName_core ?_ _ _)
        · intro c
          dsimp only
          split_ifs <;> rfl
        · intro c
          rfl

lemma finalizeBattle_foldl_core (sorted : List Car) (t : String) :
    ∀ (battles : List (ℕ × Pending)) (st : SimState),
      ((battles.foldl (finalizeBattle sorted t) st).cars).map coreOf =
        st.cars.map coreOf := by
  intro battles
  induction battles with
  | nil => intro st; rfl
  | cons b rest ih =>
    intro st
    rw [List.foldl_cons, ih]
    exact finalizeBattleCars_core sorted t st.cars b.2

lemma finalize_cars_core (st : SimState) (car : Car) :
    ((finalize_undercut_battles st car).cars).map coreOf = st.cars.map coreOf := by
  unfold finalize_undercut_battles
  dsimp only
  rw [finalizeBattle_foldl_core]
  exact applyPositions_core st.cars

lemma findByName_core_congr :
    ∀ (l1 l2 : List Car), l1.map coreOf = l2.map coreOf → ∀ n : String,
      (findByName l1 n).map coreOf = (findByName l2 n).map coreOf := by
  intro l1
  induction l1 with
  | nil =>
    intro l2 h n
    cases l2 with
    | nil => rfl
    | cons y ys => simp at h
  | cons x xs ih =>
    intro l2 h n
    cases l2 with
    | nil => simp at h
    | cons y ys =>
      simp only [List.map_cons, List.cons.injEq] at h
      obtain ⟨hxy, hrest⟩ := h
      have hname : x.name = y.name := by
        have h2 := congrArg Car.name hxy
        exact h2
      unfold findByName
      cases hx : (x.name == n) with
      | true =>
        have hy : (y.name == n) = true := by rw [← hname]; exact hx
        simp only [List.find?, hx, hy, Option.map_some']
        rw [hxy]
      | false =>
        have hy : (y.name == n) = false := by rw [← hname]; exact hx
        simp only [List.find?, hx, hy]
        exact ih ys hrest n

lemma findByName_replaceByName (ctx : List Car) (c : Car) :
    findByName (replaceByName ctx c) c.name = none ∨
      findByName (replaceByName ctx c) c.name = some c := by
  induction ctx with
  | nil => exact Or.inl rfl
  | cons x xs ih =>
    unfold replaceByName findByName
    simp only [List.map_cons]
    cases hx : (x.name == c.name) with
    | true =>
      rw [if_pos rfl]
      right
      simp only [List.find?, beq_self_eq_true]
    | false =>
      rw [if_neg Bool.false_ne_true]
      simp only [List.find?, hx]
      exact ih

/-- The car object this driver reads back after `finalize_undercut_battles`
agrees with the car that entered on every field other than `position` and
`pitstop_history`. -/
lemma coreOf_pitExit (ctx : List Car) (pending : List Pending) (car1 : Car) :
    coreOf ((findByName (finalize_undercut_battles
        ⟨replaceByName ctx car1, pending⟩ car1).cars car1.name).getD car1) =
      coreOf car1 := by
  have hmap : ((finalize_undercut_battles ⟨replaceByName ctx car1, pending⟩
      car1).cars).map coreOf = (replaceByName ctx car1).map coreOf :=
    finalize_cars_core _ _
  have hfind := findByName_core_congr _ _ hmap car1.name
  rcases findByName_replaceByName ctx car1 with hn | hs
  · rw [hn] at hfind
    cases hx : findByName (finalize_undercut_battles
        ⟨replaceByName ctx car1, pending⟩ car1).cars car1.name with
    | none => rfl
    | some c2 =>
      rw [hx] at hfind
      simp at hfind
  · rw [hs] at hfind
    cases hx : findByName (finalize_undercut_battles
        ⟨replaceByName ctx car1, pending⟩ car1).cars car1.name with
    | none =>
      rw [hx] at hfind
      simp at hfind
    | some c2 =>
      rw [hx] at hfind
      simp only [Option.map_some'] at hfind
      exact Option.some.inj hfind

lemma pitExit_car2_fields (ctx : List Car) (pending : List Pending) (car1 : Car) :
    ((findByName (finalize_undercut_battles ⟨replaceByName ctx car1, pending⟩
        car1).cars car1.name).getD car1).fuel = car1.fuel ∧
    ((findByName (finalize_undercut_battles ⟨replaceByName ctx car1, pending⟩
        car1).cars car1.name).getD car1).fuel_capacity = car1.fuel_capacity ∧
    ((findByName (finalize_undercut_battles ⟨replaceByName ctx car1, pending⟩
        car1).cars car1.name).getD car1).total_time = car1.total_time ∧
    ((findByName (finalize_undercut_battles ⟨replaceByName ctx car1, pending⟩
        car1).cars car1.name).getD car1).driver_skill = car1.driver_skill ∧
    ((findByName (finalize_undercut_battles ⟨replaceByName ctx car1, pending⟩
        car1).cars car1.name).getD car1).car_skill = car1.car_skill ∧
    ((findByName (finalize_undercut_battles ⟨replaceByName ctx car1, pending⟩
        car1).cars car1.name).getD car1).s = car1.s ∧
    ((findByName (finalize_undercut_battles ⟨replaceByName ctx car1, pending⟩
        car1).cars car1.name).getD car1).v = car1.v ∧
    ((findByName (finalize_undercut_battles ⟨replaceByName ctx car1, pending⟩
        car1).cars car1.name).getD car1).laps_completed = car1.laps_completed ∧
    ((findByName (finalize_undercut_battles ⟨replaceByName ctx car1, pending⟩
        car1).cars car1.name).getD car1).on_pit = car1.on_pit := by
  have hcore := coreOf_pitExit ctx pending car1
  refine ⟨?_, ?_, ?_, ?_, ?_, ?_, ?_, ?_, ?_⟩
  · have h2 := congrArg Car.fuel hcore
    exact h2
  · have h2 := congrArg Car.fuel_capacity hcore
    exact h2
  · have h2 := congrArg Car.total_time hcore
    exact h2
  · have h2 := congrArg Car.driver_skill hcore
    exact h2
  · have h2 := congrArg Car.car_skill hcore
    exact h2
  · have h2 := congrArg Car.s hcore
    exact h2
  · have h2 := congrArg Car.v hcore
    exact h2
  · have h2 := congrArg Car.laps_completed hcore
    exact h2
  · have h2 := congrArg Car.on_pit hcore
    exact h2

/-- Field-level description of the pit-exit branch: wear resets to 0, the
tires warm to `max 80 (track_temp + 55)`, and fuel, capacity, elapsed
time, skills, distance, speed and lap count are all carried through the
finalization pass unchanged. -/
lemma pitTickStage_exit_fields (P : Params) (o : Oracle) (ctx : List Car)
    (pending : List Pending) (car : Car) (hpc : car.pit_counter - P.dt ≤ 0) :
    (pitTickStage P o ctx pending car).wear = 0 ∧
    (pitTickStage P o ctx pending car).tire_temp =
      max 80.0 (P.track_temp + 55.0) ∧
    (pitTickStage P o ctx pending car).fuel = car.fuel ∧
    (pitTickStage P o ctx pending car).fuel_capacity = car.fuel_capacity ∧
    (pitTickStage P o ctx pending car).total_time = car.total_time ∧
    (pitTickStage P o ctx pending car).driver_skill = car.driver_skill ∧
    (pitTickStage P o ctx pending car).car_skill = car.car_skill ∧
    (pitTickStage P o ctx pending car).s = car.s ∧
    (pitTickStage P o ctx pending car).v = car.v ∧
    (pitTickStage P o ctx pending car).laps_completed = car.laps_completed ∧
    (pitTickStage P o ctx pending car).on_pit = false := by
  unfold pitTickStage
  dsimp only
  rw [if_pos hpc]
  refine ⟨rfl, rfl, ?_, ?_, ?_, ?_, ?_, ?_, ?_, ?_, ?_⟩
  · exact (pitExit_car2_fields ctx pending _).1
  · exact (pitExit_car2_fields ctx pending _).2.1
  · exact (pitExit_car2_fields ctx pending _).2.2.1
  · exact (pitExit_car2_fields ctx pending _).2.2.2.1
  · exact (pitExit_car2_fields ctx pending _).2.2.2.2.1
  · exact (pitExit_car2_fields ctx pending _).2.2.2.2.2.1
  · exact (pitExit_car2_fields ctx pending _).2.2.2.2.2.2.1
  · exact (pitExit_car2_fields ctx pending _).2.2.2.2.2.2.2.1
  · exact (pitExit_car2_fields ctx pending _).2.2.2.2.2.2.2.2

/-- C10: a car mid-pit-stop (countdown exceeding the tick) is frozen for
the step: the only change is its countdown decreasing by `dt`; pit entry
adds the full pit time `max(tyre_time, refuel_time)` to `total_time` and
refuels the tank at once, leaving wear, compound and temperature
untouched; and the wear and temperature reset happens at pit exit, which
leaves fuel and elapsed time unchanged. -/
theorem C10_pit_phase_effects :
    (∀ (P : Params) (o : Oracle) (sorted ctx : List Car)
        (pending : List Pending) (car : Car),
      car.on_pit = true → P.dt < car.pit_counter →
      stepCar P o sorted ctx pending car =
        { car with pit_counter := car.pit_counter - P.dt }) ∧
    (∀ (P : Params) (o : Oracle) (ctx : List Car) (car : Car),
      (¬car.on_pit ∧ o.randPit < pitstop_probability P ctx car * P.dt) →
      (pitEntryStage P o ctx car).total_time =
          car.total_time +
            max o.pitTyreTime ((car.fuel_capacity - car.fuel) / car.refuel_rate) ∧
        (pitEntryStage P o ctx car).fuel = car.fuel_capacity ∧
        (pitEntryStage P o ctx car).wear = car.wear ∧
        (pitEntryStage P o ctx car).tyre = car.tyre ∧
        (pitEntryStage P o ctx car).tire_temp = car.tire_temp ∧
        (pitEntryStage P o ctx car).on_pit = true) ∧
    (∀ (P : Params) (o : Oracle) (sorted ctx : List Car)
        (pending : List Pending) (car : Car),
      car.on_pit = true → car.pit_counter - P.dt ≤ 0 →
      (stepCar P o sorted ctx pending car).wear = 0 ∧
        (stepCar P o sorted ctx pending car).tire_temp =
          max 80.0 (P.track_temp + 55.0) ∧
        (stepCar P o sorted ctx pending car).fuel = car.fuel ∧
        (stepCar P o sorted ctx pending car).total_time = car.total_time ∧
        (stepCar P o sorted ctx pending car).on_pit = false) := by
  refine ⟨?_, ?_, ?_⟩
  · intro P o sorted ctx pending car hop hc
    unfold stepCar
    rw [if_pos hop]
    exact pitTickStage_else P o ctx pending car (not_le.mpr (by linarith))
  · intro P o ctx car htr
    unfold pitEntryStage
    dsimp only
    rw [if_pos htr]
    exact ⟨rfl, rfl, rfl, rfl, rfl, rfl⟩
  · intro P o sorted ctx pending car hop hpc
    have hstep : stepCar P o sorted ctx pending car =
        pitTickStage P o ctx pending car := by
      unfold stepCar
      rw [if_pos hop]
    obtain ⟨hw, ht, hf, _, htt, _, _, _, _, _, hpit⟩ :=
      pitTickStage_exit_fields P o ctx pending car hpc
    rw [hstep]
    exact ⟨hw, ht, hf, htt, hpit⟩

/-- An oracle fixing all random draws of one tick: huge cornering speeds
(no cornering limit), a pit draw of 0.2, an error draw of 1 (no error). -/
def oracle0 : Oracle :=
  { vCorner := 1000, vCornerAhead := 1000, randPit := 0.2, pitTyreTime := 24,
    randErr := 1, randSev := 0, errTimer := 0, errLoss := 0, tyreIdx := 0 }

/-- The C10 mid-pit witness car: 3 seconds left on the countdown. -/
def car10m : Car :=
  { defaultCar with name := "M", on_pit := true, pit_counter := 3 }

/-- The C10 pit-entry witness car: fuel-critical, forcing probability 1. -/
def car10e : Car :=
  { defaultCar with name := "E", fuel := 4 }

/-- The C10 pit-exit witness car: 0.3 seconds left, less than one tick. -/
def car10x : Car :=
  { defaultCar with
      name := "P", on_pit := true, pit_counter := 0.3, fuel := 60,
      total_time := 500 }

/-- Witness for C10: the three pit phases at concrete cars — frozen
mid-stop frame, entry-time charge and refuel, exit-tick resets. -/
theorem C10_pit_phase_effects_witness :
    (stepCar params0 oracle0 [car10m] [car10m] [] car10m =
      { car10m with pit_counter := car10m.pit_counter - params0.dt }) ∧
    ((pitEntryStage params0 oracle0 [car10e] car10e).total_time =
        car10e.total_time + max oracle0.pitTyreTime
          ((car10e.fuel_capacity - car10e.fuel) / car10e.refuel_rate) ∧
      (pitEntryStage params0 oracle0 [car10e] car10e).fuel =
        car10e.fuel_capacity ∧
      (pitEntryStage params0 oracle0 [car10e] car10e).wear = car10e.wear ∧
      (pitEntryStage params0 oracle0 [car10e] car10e).tyre = car10e.tyre ∧
      (pitEntryStage params0 oracle0 [car10e] car10e).tire_temp =
        car10e.tire_temp ∧
      (pitEntryStage params0 oracle0 [car10e] car10e).on_pit = true) ∧
    ((stepCar params0 oracle0 [car10x] [car10x] [] car10x).wear = 0 ∧
      (stepCar params0 oracle0 [car10x] [car10x] [] car10x).tire_temp =
        max 80.0 (params0.track_temp + 55.0) ∧
      (stepCar params0 oracle0 [car10x] [car10x] [] car10x).fuel =
        car10x.fuel ∧
      (stepCar params0 oracle0 [car10x] [car10x] [] car10x).total_time =
        car10x.total_time ∧
      (stepCar params0 oracle0 [car10x] [car10x] [] car10x).on_pit = false) :=
  ⟨C10_pit_phase_effects.1 params0 oracle0 [car10m] [car10m] [] car10m
      (by decide) (by norm_num [params0, car10m, defaultCar]),
    C10_pit_phase_effects.2.1 params0 oracle0 [car10e] car10e
      (by
        refine ⟨by decide, ?_⟩
        have hp : pitstop_probability params0 [car10e] car10e = 1 := by
          norm_num [pitstop_probability, params0, car10e, defaultCar]
        rw [hp]
        norm_num [oracle0, params0]),
    C10_pit_phase_effects.2.2 params0 oracle0 [car10x] [car10x] [] car10x
      (by decide) (by norm_num [params0, car10x, defaultCar])⟩

/-- The wear/fuel range invariant of C6: wear in `[0, 1)` and fuel in
`[0, fuel_capacity]`. -/
def WearFuelInv (c : Car) : Prop :=
  0 ≤ c.wear ∧ c.wear < 1 ∧ 0 ≤ c.fuel ∧ c.fuel ≤ c.fuel_capacity

/-- Skill values lie in `[0, 1]`, as the roster initializes them; no step
ever writes them. -/
def SkillsOK (c : Car) : Prop :=
  0 ≤ c.driver_skill ∧ c.driver_skill ≤ 1 ∧
    0 ≤ c.car_skill ∧ c.car_skill ≤ 1

lemma TYRE_BASE_nonneg (t : String) : 0 ≤ TYRE_BASE t 0.95 := by
  unfold TYRE_BASE
  split_ifs <;> norm_num

lemma TYRE_BASE_le_one (t : String) : TYRE_BASE t 0.95 ≤ 1 := by
  unfold TYRE_BASE
  split_ifs <;> norm_num

lemma TYRE_WEAR_RATES_pos (t : String) : 0 < TYRE_WEAR_RATES t := by
  unfold TYRE_WEAR_RATES
  split_ifs <;> norm_num

/-- The grip coefficient never exceeds 1.8 (the wet-compound rain bonus is
its largest factor), so the wear increment `0.0005·(1+0.8·(1-grip))·…` is
never negative. -/
lemma tyre_grip_coeff_le (P : Params) (c : Car) (hr0 : 0 ≤ P.rain)
    (hr1 : P.rain ≤ 1) (hw0 : 0 ≤ c.wear) (hw1 : c.wear ≤ 1)
    (hd0 : 0 ≤ c.driver_skill) (hd1 : c.driver_skill ≤ 1)
    (hc0 : 0 ≤ c.car_skill) (hc1 : c.car_skill ≤ 1) :
    tyre_grip_coeff P c ≤ 1.8 := by
  unfold tyre_grip_coeff
  dsimp only
  have hb0 := TYRE_BASE_nonneg c.tyre
  have hb1 := TYRE_BASE_le_one c.tyre
  have hwfac : (0:ℚ) ≤ 1 - 0.6 * c.wear := by linarith
  have h1 : (0:ℚ) ≤ TYRE_BASE c.tyre 0.95 * (1 - 0.6 * c.wear) :=
    mul_nonneg hb0 hwfac
  have h2 : TYRE_BASE c.tyre 0.95 * (1 - 0.6 * c.wear) ≤ 1 := by nlinarith
  have hsf0 : (0:ℚ) ≤ 0.8 + 0.4 * (0.7 * c.driver_skill + 0.3 * c.car_skill) := by
    linarith
  have hsf1 : 0.8 + 0.4 * (0.7 * c.driver_skill + 0.3 * c.car_skill) ≤ 1.2 := by
    linarith
  apply max_le _ (by norm_num)
  split_ifs with ht
  · have hr : (0:ℚ) ≤ 1.0 + 0.5 * P.rain := by linarith
    have hAR0 : (0:ℚ) ≤ TYRE_BASE c.tyre 0.95 * (1 - 0.6 * c.wear) *
        (1.0 + 0.5 * P.rain) := mul_nonneg h1 hr
    have hAR : TYRE_BASE c.tyre 0.95 * (1 - 0.6 * c.wear) *
        (1.0 + 0.5 * P.rain) ≤ 1.5 := by nlinarith
    nlinarith
  · have hr : (0:ℚ) ≤ 1.0 - 0.9 * P.rain := by linarith
    have hAR0 : (0:ℚ) ≤ TYRE_BASE c.tyre 0.95 * (1 - 0.6 * c.wear) *
        (1.0 - 0.9 * P.rain) := mul_nonneg h1 hr
    have hAR : TYRE_BASE c.tyre 0.95 * (1 - 0.6 * c.wear) *
        (1.0 - 0.9 * P.rain) ≤ 1.5 := by nlinarith
    nlinarith

lemma inv_drsStage (P : Params) (sorted : List Car) (c : Car)
    (h : WearFuelInv c) (hs : SkillsOK c) :
    WearFuelInv (drsStage P sorted c) ∧ SkillsOK (drsStage P sorted c) :=
  ⟨h, hs⟩

lemma inv_speedStage (P : Params) (o : Oracle) (sorted : List Car) (curv : ℚ)
    (c : Car) (h : WearFuelInv c) (hs : SkillsOK c) :
    WearFuelInv (speedStage P o sorted curv c) ∧
      SkillsOK (speedStage P o sorted curv c) :=
  ⟨h, hs⟩

lemma inv_errorDecayStage (P : Params) (c : Car) (h : WearFuelInv c)
    (hs : SkillsOK c) :
    WearFuelInv (errorDecayStage P c) ∧ SkillsOK (errorDecayStage P c) := by
  unfold errorDecayStage
  dsimp only
  split_ifs <;> exact ⟨h, hs⟩

lemma inv_pitEntryStage (P : Params) (o : Oracle) (ctx : List Car) (c : Car)
    (h : WearFuelInv c) (hs : SkillsOK c) :
    WearFuelInv (pitEntryStage P o ctx c) ∧ SkillsOK (pitEntryStage P o ctx c) := by
  unfold pitEntryStage
  dsimp only
  split_ifs with htr
  · exact ⟨⟨h.1, h.2.1, le_trans h.2.2.1 h.2.2.2, le_refl _⟩, hs⟩
  · exact ⟨h, hs⟩

lemma inv_errorInjectStage (P : Params) (o : Oracle) (c : Car)
    (h : WearFuelInv c) (hs : SkillsOK c) :
    WearFuelInv (errorInjectStage P o c) ∧ SkillsOK (errorInjectStage P o c) := by
  unfold errorInjectStage
  dsimp only
  split_ifs <;> exact ⟨h, hs⟩

lemma inv_wearStage (P : Params) (c : Car) (hdt : 0 ≤ P.dt) (hr0 : 0 ≤ P.rain)
    (hr1 : P.rain ≤ 1) (h : WearFuelInv c) (hs : SkillsOK c) :
    WearFuelInv (wearStage P c) ∧ SkillsOK (wearStage P c) := by
  obtain ⟨hw0, hw1, hf0, hf1⟩ := h
  obtain ⟨hd0, hd1, hc0, hc1⟩ := hs
  have hg := tyre_grip_coeff_le P c hr0 hr1 hw0 (le_of_lt hw1) hd0 hd1 hc0 hc1
  have hX : (0:ℚ) ≤ 1 + 0.8 * (1 - tyre_grip_coeff P c) := by linarith
  have hR := TYRE_WEAR_RATES_pos c.tyre
  have hb : (0:ℚ) ≤ (if c.drs_active then TYRE_WEAR_RATES c.tyre * 1.05
      else TYRE_WEAR_RATES c.tyre) := by
    split_ifs <;> linarith
  have hδ : (0:ℚ) ≤ 0.0005 * (1 + 0.8 * (1 - tyre_grip_coeff P c)) *
      (if c.drs_active then TYRE_WEAR_RATES c.tyre * 1.05
        else TYRE_WEAR_RATES c.tyre) * P.dt :=
    mul_nonneg (mul_nonneg (mul_nonneg (by norm_num) hX) hb) hdt
  refine ⟨⟨?_, ?_, hf0, hf1⟩, hd0, hd1, hc0, hc1⟩
  · exact le_min (by linarith) (by norm_num)
  · exact lt_of_le_of_lt (min_le_right _ _) (by norm_num)

lemma inv_tempStage (P : Params) (curv : ℚ) (c : Car) (h : WearFuelInv c)
    (hs : SkillsOK c) :
    WearFuelInv (tempStage P curv c) ∧ SkillsOK (tempStage P curv c) :=
  ⟨h, hs⟩

lemma inv_fuelStage (P : Params) (c : Car) (hdt : 0 ≤ P.dt) (h : WearFuelInv c)
    (hs : SkillsOK c) :
    WearFuelInv (fuelStage P c) ∧ SkillsOK (fuelStage P c) := by
  obtain ⟨hw0, hw1, hf0, hf1⟩ := h
  have hburn : (0:ℚ) ≤ 0.035 * P.dt := mul_nonneg (by norm_num) hdt
  unfold fuelStage
  dsimp only
  split_ifs with hneg
  · exact ⟨⟨hw0, hw1, le_refl _, le_trans hf0 hf1⟩, hs⟩
  · push_neg at hneg
    exact ⟨⟨hw0, hw1, by linarith, by linarith⟩, hs⟩

lemma inv_moveStage (P : Params) (c : Car) (h : WearFuelInv c)
    (hs : SkillsOK c) :
    WearFuelInv (moveStage P c) ∧ SkillsOK (moveStage P c) := by
  unfold moveStage
  dsimp only
  split_ifs <;> exact ⟨h, hs⟩

lemma inv_pitTickStage (P : Params) (o : Oracle) (ctx : List Car)
    (pending : List Pending) (c : Car) (h : WearFuelInv c) (hs : SkillsOK c) :
    WearFuelInv (pitTickStage P o ctx pending c) ∧
      SkillsOK (pitTickStage P o ctx pending c) := by
  by_cases hpc : c.pit_counter - P.dt ≤ 0
  · obtain ⟨hw, ht, hf, hcap, htt, hd, hck, _, _, _, _⟩ :=
      pitTickStage_exit_fields P o ctx pending c hpc
    refine ⟨⟨?_, ?_, ?_, ?_⟩, ?_, ?_, ?_, ?_⟩
    · rw [hw]
    · rw [hw]; norm_num
    · rw [hf]; exact h.2.2.1
    · rw [hf, hcap]; exact h.2.2.2
    · rw [hd]; exact hs.1
    · rw [hd]; exact hs.2.1
    · rw [hck]; exact hs.2.2.1
    · rw [hck]; exact hs.2.2.2
  · rw [pitTickStage_else P o ctx pending c hpc]
    exact ⟨h, hs⟩

/-- One full per-car tick keeps wear in `[0, 1)` and fuel in
`[0, fuel_capacity]`, and never writes the skill fields. -/
lemma inv_stepCar (P : Params) (o : Oracle) (sorted ctx : List Car)
    (pending : List Pending) (c : Car) (hdt : 0 ≤ P.dt) (hr0 : 0 ≤ P.rain)
    (hr1 : P.rain ≤ 1) (h : WearFuelInv c) (hs : SkillsOK c) :
    WearFuelInv (stepCar P o sorted ctx pending c) ∧
      SkillsOK (stepCar P o sorted ctx pending c) := by
  unfold stepCar
  split_ifs with hop
  · exact inv_pitTickStage P o ctx pending c h hs
  · dsimp only
    obtain ⟨h1, s1⟩ := inv_drsStage P sorted c h hs
    obtain ⟨h2, s2⟩ := inv_speedStage P o sorted
      (curvAt P.track (s_to_u P.track c.s)) (drsStage P sorted c) h1 s1
    obtain ⟨h3, s3⟩ := inv_errorDecayStage P _ h2 s2
    obtain ⟨h4, s4⟩ := inv_pitEntryStage P o ctx _ h3 s3
    obtain ⟨h5, s5⟩ := inv_errorInjectStage P o _ h4 s4
    obtain ⟨h6, s6⟩ := inv_wearStage P _ hdt hr0 hr1 h5 s5
    obtain ⟨h7, s7⟩ := inv_tempStage P _ _ h6 s6
    obtain ⟨h8, s8⟩ := inv_fuelStage P _ hdt h7 s7
    exact inv_moveStage P _ h8 s8

/-- The context one tick of the per-car loop runs in: the oracle draws,
the leaderboard view, the `self.cars` view and the pending-undercut
list. -/
structure TickCtx where
  oracle : Oracle
  sorted : List Car
  ctx : List Car
  pending : List Pending

/-- A finite sequence of per-car simulation ticks. -/
def runSteps (P : Params) (c : Car) : List TickCtx → Car
  | [] => c
  | t :: rest => runSteps P (stepCar P t.oracle t.sorted t.ctx t.pending c) rest

/-- C6: for every finite sequence of simulation ticks (under nonnegative
`dt`, rain in `[0, 1]`, skills in `[0, 1]` and valid initial ranges), the
tire wear stays within `[0, 1)` — the code caps it at 0.99 and resets it
to 0 on a tire change — and the fuel stays within
`[0, fuel_capacity]`. -/
theorem C6_wear_fuel_bounds (P : Params) (hdt : 0 ≤ P.dt) (hr0 : 0 ≤ P.rain)
    (hr1 : P.rain ≤ 1) (c : Car) (h : WearFuelInv c) (hs : SkillsOK c)
    (ticks : List TickCtx) :
    0 ≤ (runSteps P c ticks).wear ∧ (runSteps P c ticks).wear < 1 ∧
      0 ≤ (runSteps P c ticks).fuel ∧
      (runSteps P c ticks).fuel ≤ (runSteps P c ticks).fuel_capacity := by
  suffices H : WearFuelInv (runSteps P c ticks) ∧ SkillsOK (runSteps P c ticks) by
    exact H.1
  induction ticks generalizing c with
  | nil => exact ⟨h, hs⟩
  | cons t rest ih =>
    obtain ⟨h1, s1⟩ := inv_stepCar P t.oracle t.sorted t.ctx t.pending c
      hdt hr0 hr1 h hs
    exact ih _ h1 s1

/-- Two concrete ticks for the C6 witness scenario. -/
def tick0 : TickCtx :=
  { oracle := oracle0, sorted := [defaultCar], ctx := [defaultCar],
    pending := [] }

/-- Witness for C6: the default car under two concrete ticks keeps wear in
`[0, 1)` and fuel in `[0, capacity]`. -/
theorem C6_wear_fuel_bounds_witness :
    0 ≤ (runSteps params0 defaultCar [tick0, tick0]).wear ∧
      (runSteps params0 defaultCar [tick0, tick0]).wear < 1 ∧
      0 ≤ (runSteps params0 defaultCar [tick0, tick0]).fuel ∧
      (runSteps params0 defaultCar [tick0, tick0]).fuel ≤
        (runSteps params0 defaultCar [tick0, tick0]).fuel_capacity :=
  C6_wear_fuel_bounds params0 (by norm_num [params0]) (by norm_num [params0])
    (by norm_num [params0]) defaultCar
    (by norm_num [WearFuelInv, defaultCar])
    (by norm_num [SkillsOK, defaultCar]) [tick0, tick0]

end GRSim
